import Mathlib

/-!
# Verification of the SickVision detection/tracking core

Shallow embedding of `src/rknn/ByteTracker.py` and `src/rknn/RknnYolo.py`.

Modelling conventions:
* Python floats are modelled as `ℚ` (every concrete constant in the source is a
  short decimal, represented exactly; `1e-10`, `1e-7`, `1e-6` become the exact
  rationals).
* Python `STrack` objects are mutable and aliased between the tracker's three
  collections, and membership tests (`t not in lost_tracks`) use object
  identity (the class defines no `__eq__`).  We therefore model the object
  store explicitly: every `STrack` lives in a `heap : List STrackData`, its
  "identity" is its index (`oid`), and the collections are lists of indices.
* The Kalman filter fields `mean`/`covariance` are not carried: `predict`,
  `initiate` and `update` write them, but no field we model ever reads them —
  the association matrices and the per-frame outputs are computed from
  `self.tlwh`, which `STrack.update` sets directly from the detection
  (`ByteTracker.py` line 87), never from the filter state.  Consequently
  `STrack.predict` (which touches only `mean`/`covariance`) is a no-op here.
* `scipy.optimize.linear_sum_assignment` is an external library; it is
  modelled as a parameter `sol : ℕ → ℕ → List (List ℚ) → List (ℕ × ℕ)`
  receiving the (negated, as in the source) cost matrix together with its
  dimensions, constrained by `AssignOk` (a full valid bipartite matching:
  `min n m` pairs, in-range, no row or column used twice).  Properties are
  proved for every such solver; concrete runs use `diagSolver`, and every
  concrete run below is arranged so that each matching that survives the
  IoU-threshold filter is the unique optimal one, hence agrees with scipy.
* The `try/except` around detection conversion cannot fire in the model
  (all attributes exist), the `temp_feat`/feature branch is dead
  (`ByteTracker.update` constructs `STrack` without features), and
  `STrack.track_count` is written but never read; these are omitted.
-/

namespace SickVision

/-- `TrackState` from ByteTracker.py (New=0, Tracked=1, Lost=2, Removed=3). -/
inductive TrackState where
  | New
  | Tracked
  | Lost
  | Removed
deriving DecidableEq, Repr

/-- The fields of a Python `STrack` object that the tracking logic reads
(see the modelling conventions above for the omitted Kalman fields). -/
structure STrackData where
  tlwh_x : ℚ
  tlwh_y : ℚ
  tlwh_w : ℚ
  tlwh_h : ℚ
  score : ℚ
  class_id : ℤ
  tracklet_len : ℕ
  is_activated : Bool
  state : TrackState
  track_id : ℕ
  start_frame : ℕ
  frame_id : ℕ
  time_since_update : ℕ
  end_frame : ℕ
deriving DecidableEq, Repr

instance : Inhabited STrackData :=
  ⟨{ tlwh_x := 0, tlwh_y := 0, tlwh_w := 0, tlwh_h := 0, score := 0, class_id := 0,
     tracklet_len := 0, is_activated := false, state := TrackState.New, track_id := 0,
     start_frame := 0, frame_id := 0, time_since_update := 0, end_frame := 0 }⟩

/-- `DetectBox` from RknnYolo.py: an oriented box given by its four corner
points, with class, score and angle. -/
structure DetectBox where
  classId : ℤ
  score : ℚ
  pt1x : ℚ
  pt1y : ℚ
  pt2x : ℚ
  pt2y : ℚ
  pt3x : ℚ
  pt3y : ℚ
  pt4x : ℚ
  pt4y : ℚ
  angle : ℚ
deriving DecidableEq, Repr

instance : Inhabited DetectBox := ⟨⟨0, 0, 0, 0, 0, 0, 0, 0, 0, 0, 0⟩⟩

/-- An axis-aligned box in (x1, y1, x2, y2) form. -/
structure Tlbr where
  x1 : ℚ
  y1 : ℚ
  x2 : ℚ
  y2 : ℚ
deriving DecidableEq, Repr

/-- One entry of the list returned by `ByteTracker.update`
(`{'track_id', 'class_id', 'score', 'bbox'}` with bbox in tlwh form). -/
structure TrackOut where
  track_id : ℕ
  class_id : ℤ
  score : ℚ
  ox : ℚ
  oy : ℚ
  ow : ℚ
  oh : ℚ
deriving DecidableEq, Repr

/-- Constructor parameters of `ByteTracker.__init__`
(`max_time_lost` is `track_buffer`; `fuse_score` is stored but never read
by `update`, kept for fidelity). -/
structure TrackerCfg where
  track_thresh : ℚ
  match_thresh : ℚ
  max_time_lost : ℕ
  fuse_score : Bool
deriving DecidableEq, Repr

/-- Defaults of `ByteTracker.__init__`. -/
def defaultCfg : TrackerCfg :=
  { track_thresh := 1/2, match_thresh := 4/5, max_time_lost := 30, fuse_score := true }

/-- The mutable state of a `ByteTracker` instance: the object heap plus the
three collections (as lists of heap indices), the frame counter, and the
global id counter `STrack._next_id` (class-level in Python; `reset()` zeroes
it together with the rest, so we carry it in the state). -/
structure TrackerState where
  heap : List STrackData
  tracked_tracks : List ℕ
  lost_tracks : List ℕ
  removed_tracks : List ℕ
  frame_id : ℕ
  next_id : ℕ
deriving DecidableEq, Repr

/-- The state after `ByteTracker.__init__` / `reset()`. -/
def initState : TrackerState :=
  { heap := [], tracked_tracks := [], lost_tracks := [], removed_tracks := [],
    frame_id := 0, next_id := 0 }

/-- Read an object from the heap (Python attribute access on the object with
this identity; all accesses in reachable executions are in range). -/
def getTrack (heap : List STrackData) (o : ℕ) : STrackData :=
  heap.getD o default

/-- Write an object back to the heap (mutation of the Python object). -/
def setTrack (heap : List STrackData) (o : ℕ) (d : STrackData) : List STrackData :=
  heap.set o d

/-- `min` of four values, as `min(a, b, c, d)` in Python. -/
def min4 (p1 p2 p3 p4 : ℚ) : ℚ := min p1 (min p2 (min p3 p4))

/-- `max` of four values. -/
def max4 (p1 p2 p3 p4 : ℚ) : ℚ := max p1 (max p2 (max p3 p4))

/-- Detection-to-STrack conversion at the top of `ByteTracker.update`:
axis-aligned hull of the four corners, converted by `STrack.tlbr_to_tlwh`,
then `STrack.__init__` with the detection's score and class. -/
def detToSTrack (det : DetectBox) : STrackData :=
  let x1 := min4 det.pt1x det.pt2x det.pt3x det.pt4x
  let y1 := min4 det.pt1y det.pt2y det.pt3y det.pt4y
  let x2 := max4 det.pt1x det.pt2x det.pt3x det.pt4x
  let y2 := max4 det.pt1y det.pt2y det.pt3y det.pt4y
  { tlwh_x := x1, tlwh_y := y1, tlwh_w := x2 - x1, tlwh_h := y2 - y1,
    score := det.score, class_id := det.classId,
    tracklet_len := 0, is_activated := false, state := TrackState.New,
    track_id := 0, start_frame := 0, frame_id := 0, time_since_update := 0,
    end_frame := 0 }

/-- `STrack.update(new_track, frame_id)`: adopt the detection's box, score and
class, bump the tracklet length, and become Tracked/activated. -/
def strackUpdate (d : STrackData) (det : STrackData) (frame : ℕ) : STrackData :=
  { d with frame_id := frame, time_since_update := 0,
           tracklet_len := d.tracklet_len + 1,
           tlwh_x := det.tlwh_x, tlwh_y := det.tlwh_y,
           tlwh_w := det.tlwh_w, tlwh_h := det.tlwh_h,
           score := det.score, class_id := det.class_id,
           state := TrackState.Tracked, is_activated := true }

/-- `STrack.mark_lost()`: note `end_frame` records the object's own
`frame_id` field, i.e. the frame of its last update, not the current frame. -/
def markLost (d : STrackData) : STrackData :=
  { d with state := TrackState.Lost, end_frame := d.frame_id }

/-- `STrack.mark_removed()`. -/
def markRemoved (d : STrackData) : STrackData :=
  { d with state := TrackState.Removed, is_activated := false }

/-- `STrack.activate(kalman_filter, frame_id)` with the freshly drawn id. -/
def strackActivate (d : STrackData) (newId frame : ℕ) : STrackData :=
  { d with track_id := newId, tracklet_len := 0, state := TrackState.Tracked,
           is_activated := true, frame_id := frame, start_frame := frame }

/-- `STrack.to_tlbr()`. -/
def tlbrOf (heap : List STrackData) (o : ℕ) : Tlbr :=
  let d := getTrack heap o
  { x1 := d.tlwh_x, y1 := d.tlwh_y, x2 := d.tlwh_x + d.tlwh_w, y2 := d.tlwh_y + d.tlwh_h }

/-- `STrack.to_tlbr()` of the fresh `STrack` built from a detection. -/
def detTlbr (det : DetectBox) : Tlbr :=
  let s := detToSTrack det
  { x1 := s.tlwh_x, y1 := s.tlwh_y, x2 := s.tlwh_x + s.tlwh_w, y2 := s.tlwh_y + s.tlwh_h }

/-- One entry of `iou_batch` (ByteTracker.py lines 352-383), computed
elementwise: intersection over union with the `max(union, 1e-10)` guard. -/
def iouPair (a b : Tlbr) : ℚ :=
  let tlx := max a.x1 b.x1
  let tly := max a.y1 b.y1
  let brx := min a.x2 b.x2
  let bry := min a.y2 b.y2
  let w := max 0 (brx - tlx)
  let h := max 0 (bry - tly)
  let inter := w * h
  let aArea := (a.x2 - a.x1) * (a.y2 - a.y1)
  let bArea := (b.x2 - b.x1) * (b.y2 - b.y1)
  let uni := aArea + bArea - inter
  inter / max uni (1 / 10000000000)

/-- `iou_batch` on two lists of boxes: the N×M matrix of pairwise IoUs. -/
def iouBatch (as2 bs : List Tlbr) : List (List ℚ) :=
  as2.map fun a => bs.map fun b => iouPair a b

/-- Matrix entry access `A[r, c]`. -/
def mEntry (A : List (List ℚ)) (r c : ℕ) : ℚ :=
  (A.getD r []).getD c 0

/-- Elementwise negation, as the source passes `-iou_matrix` to the solver. -/
def negM (A : List (List ℚ)) : List (List ℚ) :=
  A.map fun row => row.map fun x => -x

/-- The structural contract of `scipy.optimize.linear_sum_assignment` on an
n×m cost matrix: it returns `min n m` (row, col) pairs, all in range, no row
or column repeated.  (Optimality is not needed for any property below; every
concrete run is arranged so that the threshold-surviving matches are forced.) -/
def AssignOk (sol : ℕ → ℕ → List (List ℚ) → List (ℕ × ℕ)) : Prop :=
  ∀ n m A, (sol n m A).length = min n m ∧
    (∀ p ∈ sol n m A, p.1 < n ∧ p.2 < m) ∧
    ((sol n m A).map Prod.fst).Nodup ∧
    ((sol n m A).map Prod.snd).Nodup

/-- A concrete valid solver used for concrete executions: the diagonal
matching.  On every matrix arising in the runs below, each pair that survives
the IoU-threshold filter is the unique optimal assignment, so on those inputs
this solver agrees with scipy's. -/
def diagSolver : ℕ → ℕ → List (List ℚ) → List (ℕ × ℕ) :=
  fun n m _ => (List.range (min n m)).map fun i => (i, i)

/-! ## The `ByteTracker.update` pipeline (ByteTracker.py lines 465-673)

Each phase of the method body is a named definition taking the configuration,
the assignment solver, the pre-call tracker state and the frame's detections;
`byteUpdate` chains them.  Loop bodies that mutate `STrack` objects are
expressed as recursions threading the heap. -/

/-- Lines 482-502: the detections are converted to fresh `STrack` objects;
the heap after their allocation. -/
def heap1 (st : TrackerState) (dets : List DetectBox) : List STrackData :=
  st.heap ++ dets.map detToSTrack

/-- The identities of the freshly allocated detection objects. -/
def detOids (st : TrackerState) (dets : List DetectBox) : List ℕ :=
  List.range' st.heap.length dets.length

/-- Lines 505-509: the activated members of `self.tracked_tracks`
(local `tracked_tracks`). -/
def trackedL (st : TrackerState) (dets : List DetectBox) : List ℕ :=
  st.tracked_tracks.filter fun t => (getTrack (heap1 st dets) t).is_activated

/-- Line 512: the non-activated members of `self.tracked_tracks`
(local `unconfirmed_tracks`). -/
def unconfL (st : TrackerState) (dets : List DetectBox) : List ℕ :=
  st.tracked_tracks.filter fun t => !(getTrack (heap1 st dets) t).is_activated

/-- Line 522: detections with `score >= track_thresh`
(`high_score_detections`). -/
def highD (cfg : TrackerCfg) (st : TrackerState) (dets : List DetectBox) : List ℕ :=
  (detOids st dets).filter fun d =>
    decide (cfg.track_thresh ≤ (getTrack (heap1 st dets) d).score)

/-- Line 562: detections with `score < track_thresh` (`low_score_detections`). -/
def lowD (cfg : TrackerCfg) (st : TrackerState) (dets : List DetectBox) : List ℕ :=
  (detOids st dets).filter fun d =>
    decide ((getTrack (heap1 st dets) d).score < cfg.track_thresh)

/-- Solver oracle type for `scipy.optimize.linear_sum_assignment`. -/
abbrev Solver := ℕ → ℕ → List (List ℚ) → List (ℕ × ℕ)

/-- Line 525: whether the first association stage runs. -/
def s1run (cfg : TrackerCfg) (st : TrackerState) (dets : List DetectBox) : Bool :=
  !(trackedL st dets).isEmpty && !(highD cfg st dets).isEmpty

/-- Line 528: the stage-1 IoU matrix (tracked rows × high-score columns). -/
def s1iou (cfg : TrackerCfg) (st : TrackerState) (dets : List DetectBox) : List (List ℚ) :=
  iouBatch ((trackedL st dets).map (tlbrOf (heap1 st dets)))
    ((highD cfg st dets).map (tlbrOf (heap1 st dets)))

/-- Lines 530-532: the raw solver output for stage 1 (only computed when the
stage runs; the source passes the negated IoU matrix). -/
def s1pairs (cfg : TrackerCfg) (sol : Solver) (st : TrackerState) (dets : List DetectBox) :
    List (ℕ × ℕ) :=
  if s1run cfg st dets then
    sol (trackedL st dets).length (highD cfg st dets).length (negM (s1iou cfg st dets))
  else []

/-- Lines 535-538: solver pairs whose IoU reaches `match_thresh`. -/
def s1matches (cfg : TrackerCfg) (sol : Solver) (st : TrackerState) (dets : List DetectBox) :
    List (ℕ × ℕ) :=
  (s1pairs cfg sol st dets).filter fun p =>
    decide (cfg.match_thresh ≤ mEntry (s1iou cfg st dets) p.1 p.2)

/-- Line 541 (if-branch) / line 558 (else-branch): stage-1 unmatched track
indices into the local `tracked_tracks` list. -/
def s1um (cfg : TrackerCfg) (sol : Solver) (st : TrackerState) (dets : List DetectBox) :
    List ℕ :=
  if s1run cfg st dets then
    (List.range (trackedL st dets).length).filter fun i =>
      !((s1matches cfg sol st dets).map Prod.fst).contains i
  else List.range (trackedL st dets).length

/-- Line 542 / line 559: stage-1 unmatched detection indices into
`high_score_detections`. -/
def s1ud (cfg : TrackerCfg) (sol : Solver) (st : TrackerState) (dets : List DetectBox) :
    List ℕ :=
  if s1run cfg st dets then
    (List.range (highD cfg st dets).length).filter fun i =>
      !((s1matches cfg sol st dets).map Prod.snd).contains i
  else List.range (highD cfg st dets).length

/-- A matched-pairs loop (`track.update(det, frame_id)` for every pair),
returning the updated heap and the track identities appended to
`activated_tracks`, in loop order. -/
def applyMatches (frame : ℕ) (trkOf detOf : ℕ → ℕ) :
    List (ℕ × ℕ) → List STrackData → List STrackData × List ℕ
  | [], h => (h, [])
  | p :: rest, h =>
      let t := trkOf p.1
      let d := detOf p.2
      let h2 := setTrack h t (strackUpdate (getTrack h t) (getTrack h d) frame)
      let res := applyMatches frame trkOf detOf rest h2
      (res.1, t :: res.2)

/-- A `mark_lost` loop over track identities. -/
def applyLost : List ℕ → List STrackData → List STrackData
  | [], h => h
  | t :: rest, h => applyLost rest (setTrack h t (markLost (getTrack h t)))

/-- A `mark_removed` loop over track identities. -/
def applyRemoved : List ℕ → List STrackData → List STrackData
  | [], h => h
  | t :: rest, h => applyRemoved rest (setTrack h t (markRemoved (getTrack h t)))

/-- Lines 544-549: update the stage-1 matched tracks. -/
def s1upd (cfg : TrackerCfg) (sol : Solver) (st : TrackerState) (dets : List DetectBox) :
    List STrackData × List ℕ :=
  applyMatches (st.frame_id + 1) (fun r => (trackedL st dets).getD r 0)
    (fun c => (highD cfg st dets).getD c 0) (s1matches cfg sol st dets) (heap1 st dets)

/-- Lines 551-555: the tracks marked lost inside the stage-1 branch (the
else-branch at 556-559 marks nothing). -/
def s1lostOids (cfg : TrackerCfg) (sol : Solver) (st : TrackerState) (dets : List DetectBox) :
    List ℕ :=
  if s1run cfg st dets then
    (s1um cfg sol st dets).map fun i => (trackedL st dets).getD i 0
  else []

/-- Heap after stage 1. -/
def heap3 (cfg : TrackerCfg) (sol : Solver) (st : TrackerState) (dets : List DetectBox) :
    List STrackData :=
  applyLost (s1lostOids cfg sol st dets) (s1upd cfg sol st dets).1

/-- Line 564: whether the low-confidence second stage runs. -/
def s2run (cfg : TrackerCfg) (sol : Solver) (st : TrackerState) (dets : List DetectBox) : Bool :=
  !(s1um cfg sol st dets).isEmpty && !(lowD cfg st dets).isEmpty

/-- Line 565: the identities of the stage-2 row tracks
(`tracked_tracks[i]` for `i` in `unmatched_tracks`). -/
def s2rows (cfg : TrackerCfg) (sol : Solver) (st : TrackerState) (dets : List DetectBox) :
    List ℕ :=
  (s1um cfg sol st dets).map fun i => (trackedL st dets).getD i 0

/-- Line 567: the stage-2 IoU matrix, read from the post-stage-1 heap. -/
def s2iou (cfg : TrackerCfg) (sol : Solver) (st : TrackerState) (dets : List DetectBox) :
    List (List ℚ) :=
  iouBatch ((s2rows cfg sol st dets).map (tlbrOf (heap3 cfg sol st dets)))
    ((lowD cfg st dets).map (tlbrOf (heap3 cfg sol st dets)))

/-- Lines 570-571 for stage 2. -/
def s2pairs (cfg : TrackerCfg) (sol : Solver) (st : TrackerState) (dets : List DetectBox) :
    List (ℕ × ℕ) :=
  if s2run cfg sol st dets then
    sol (s1um cfg sol st dets).length (lowD cfg st dets).length (negM (s2iou cfg sol st dets))
  else []

/-- Lines 574-577 for stage 2. -/
def s2matches (cfg : TrackerCfg) (sol : Solver) (st : TrackerState) (dets : List DetectBox) :
    List (ℕ × ℕ) :=
  (s2pairs cfg sol st dets).filter fun p =>
    decide (cfg.match_thresh ≤ mEntry (s2iou cfg sol st dets) p.1 p.2)

/-- Lines 583-588: update the stage-2 matched tracks
(`tracked_tracks[unmatched_tracks[row]]`). -/
def s2upd (cfg : TrackerCfg) (sol : Solver) (st : TrackerState) (dets : List DetectBox) :
    List STrackData × List ℕ :=
  applyMatches (st.frame_id + 1)
    (fun r => (trackedL st dets).getD ((s1um cfg sol st dets).getD r 0) 0)
    (fun c => (lowD cfg st dets).getD c 0) (s2matches cfg sol st dets)
    (heap3 cfg sol st dets)

/-- Lines 580 and 590-594 (if-branch), lines 596-600 (else-branch): the
tracks marked lost after stage 2.  Note tracks unmatched in stage 1 were
already marked and appended there, so these are second marks/appends. -/
def s2lostOids (cfg : TrackerCfg) (sol : Solver) (st : TrackerState) (dets : List DetectBox) :
    List ℕ :=
  if s2run cfg sol st dets then
    ((List.range (s1um cfg sol st dets).length).filter fun i =>
        !((s2matches cfg sol st dets).map Prod.fst).contains i).map
      fun i => (trackedL st dets).getD ((s1um cfg sol st dets).getD i 0) 0
  else (s1um cfg sol st dets).map fun i => (trackedL st dets).getD i 0

/-- Heap after stage 2. -/
def heap5 (cfg : TrackerCfg) (sol : Solver) (st : TrackerState) (dets : List DetectBox) :
    List STrackData :=
  applyLost (s2lostOids cfg sol st dets) (s2upd cfg sol st dets).1

/-- Line 604: whether the unconfirmed-track pass runs
(`detections_for_unconfirmed` is a shallow copy of `high_score_detections`). -/
def ucRun (cfg : TrackerCfg) (st : TrackerState) (dets : List DetectBox) : Bool :=
  !(unconfL st dets).isEmpty && !(highD cfg st dets).isEmpty

/-- Line 607: the unconfirmed-pass IoU matrix. -/
def ucIou (cfg : TrackerCfg) (sol : Solver) (st : TrackerState) (dets : List DetectBox) :
    List (List ℚ) :=
  iouBatch ((unconfL st dets).map (tlbrOf (heap5 cfg sol st dets)))
    ((highD cfg st dets).map (tlbrOf (heap5 cfg sol st dets)))

/-- Lines 610-611 for the unconfirmed pass. -/
def ucPairs (cfg : TrackerCfg) (sol : Solver) (st : TrackerState) (dets : List DetectBox) :
    List (ℕ × ℕ) :=
  if ucRun cfg st dets then
    sol (unconfL st dets).length (highD cfg st dets).length (negM (ucIou cfg sol st dets))
  else []

/-- Lines 614-617 for the unconfirmed pass. -/
def ucMatches (cfg : TrackerCfg) (sol : Solver) (st : TrackerState) (dets : List DetectBox) :
    List (ℕ × ℕ) :=
  (ucPairs cfg sol st dets).filter fun p =>
    decide (cfg.match_thresh ≤ mEntry (ucIou cfg sol st dets) p.1 p.2)

/-- Lines 622-627: update the matched unconfirmed tracks. -/
def ucUpd (cfg : TrackerCfg) (sol : Solver) (st : TrackerState) (dets : List DetectBox) :
    List STrackData × List ℕ :=
  applyMatches (st.frame_id + 1) (fun r => (unconfL st dets).getD r 0)
    (fun c => (highD cfg st dets).getD c 0) (ucMatches cfg sol st dets)
    (heap5 cfg sol st dets)

/-- Lines 620 and 629-633 (if-branch), lines 635-638 (else-branch): the
unconfirmed tracks marked removed. -/
def ucRemovedOids (cfg : TrackerCfg) (sol : Solver) (st : TrackerState) (dets : List DetectBox) :
    List ℕ :=
  if ucRun cfg st dets then
    ((List.range (unconfL st dets).length).filter fun i =>
        !((ucMatches cfg sol st dets).map Prod.fst).contains i).map
      fun i => (unconfL st dets).getD i 0
  else unconfL st dets

/-- Heap after the unconfirmed pass. -/
def heap7 (cfg : TrackerCfg) (sol : Solver) (st : TrackerState) (dets : List DetectBox) :
    List STrackData :=
  applyRemoved (ucRemovedOids cfg sol st dets) (ucUpd cfg sol st dets).1

/-- Lines 640-644: the lost-track eviction loop over `self.lost_tracks`:
`mark_removed` (and append to the local `removed_tracks`) every track with
`frame_id - end_frame > max_time_lost` (exact integer arithmetic). -/
def applyEvict (maxLost frame : ℕ) : List ℕ → List STrackData → List STrackData × List ℕ
  | [], h => (h, [])
  | t :: rest, h =>
      if (maxLost : ℤ) < (frame : ℤ) - ((getTrack h t).end_frame : ℤ) then
        let h2 := setTrack h t (markRemoved (getTrack h t))
        let res := applyEvict maxLost frame rest h2
        (res.1, t :: res.2)
      else applyEvict maxLost frame rest h

/-- Heap and removed-append list after eviction. -/
def evStep (cfg : TrackerCfg) (sol : Solver) (st : TrackerState) (dets : List DetectBox) :
    List STrackData × List ℕ :=
  applyEvict cfg.max_time_lost (st.frame_id + 1) st.lost_tracks (heap7 cfg sol st dets)

/-- Lines 646-651: the new-track loop over the *stage-1* unmatched
high-score detections: re-check the score threshold, `activate` (drawing
`STrack.next_id()`), and append to `activated_tracks`.  Returns the heap,
the new id counter, the ids drawn (in order), and the activated identities. -/
def spawnRec (cfg : TrackerCfg) (frame : ℕ) (hsD : List ℕ) :
    List ℕ → List STrackData → ℕ → List STrackData × ℕ × List ℕ × List ℕ
  | [], h, n => (h, n, [], [])
  | i :: rest, h, n =>
      let d := hsD.getD i 0
      if cfg.track_thresh ≤ (getTrack h d).score then
        let h2 := setTrack h d (strackActivate (getTrack h d) (n + 1) frame)
        let res := spawnRec cfg frame hsD rest h2 (n + 1)
        (res.1, res.2.1, (n + 1) :: res.2.2.1, d :: res.2.2.2)
      else spawnRec cfg frame hsD rest h n

/-- The spawn phase applied to the pipeline's state. -/
def spawnStep (cfg : TrackerCfg) (sol : Solver) (st : TrackerState) (dets : List DetectBox) :
    List STrackData × ℕ × List ℕ × List ℕ :=
  spawnRec cfg (st.frame_id + 1) (highD cfg st dets) (s1ud cfg sol st dets)
    (evStep cfg sol st dets).1 st.next_id

/-- The final heap. -/
def heap9 (cfg : TrackerCfg) (sol : Solver) (st : TrackerState) (dets : List DetectBox) :
    List STrackData :=
  (spawnStep cfg sol st dets).1

/-- The ids drawn by activation during this call, in order of assignment. -/
def spawnIdsOf (cfg : TrackerCfg) (sol : Solver) (st : TrackerState) (dets : List DetectBox) :
    List ℕ :=
  (spawnStep cfg sol st dets).2.2.1

/-- The local `removed_tracks` list: unconfirmed removals first
(lines 630-638), then eviction removals (lines 641-644). -/
def removedFinal (cfg : TrackerCfg) (sol : Solver) (st : TrackerState) (dets : List DetectBox) :
    List ℕ :=
  ucRemovedOids cfg sol st dets ++ (evStep cfg sol st dets).2

/-- The local `lost_tracks` list before line 654: it starts as a copy of
`self.lost_tracks` (line 513) and receives the stage-1 and stage-2 appends. -/
def lostPre (cfg : TrackerCfg) (sol : Solver) (st : TrackerState) (dets : List DetectBox) :
    List ℕ :=
  st.lost_tracks ++ s1lostOids cfg sol st dets ++ s2lostOids cfg sol st dets

/-- Lines 654-656: re-append any member of `self.lost_tracks` missing from
both local lists (a no-op in fact, since the local list starts as a copy). -/
def lostFinal (cfg : TrackerCfg) (sol : Solver) (st : TrackerState) (dets : List DetectBox) :
    List ℕ :=
  st.lost_tracks.foldl
    (fun acc t =>
      if !acc.contains t && !(removedFinal cfg sol st dets).contains t then acc ++ [t]
      else acc)
    (lostPre cfg sol st dets)

/-- The local `activated_tracks` list, in chronological append order:
stage-1 matches, stage-2 matches, unconfirmed matches, new activations. -/
def activatedAll (cfg : TrackerCfg) (sol : Solver) (st : TrackerState) (dets : List DetectBox) :
    List ℕ :=
  (s1upd cfg sol st dets).2 ++ (s2upd cfg sol st dets).2 ++ (ucUpd cfg sol st dets).2 ++
    (spawnStep cfg sol st dets).2.2.2

/-- Lines 658-659: the rebuilt `self.tracked_tracks`. -/
def trackedFinal (cfg : TrackerCfg) (sol : Solver) (st : TrackerState) (dets : List DetectBox) :
    List ℕ :=
  (st.tracked_tracks.filter fun t =>
      !(lostFinal cfg sol st dets).contains t && !(removedFinal cfg sol st dets).contains t) ++
    activatedAll cfg sol st dets

/-- `ByteTracker.update`: the post-call state and the returned result list
(lines 663-673: every activated member of the new `tracked_tracks`). -/
def byteUpdate (cfg : TrackerCfg) (sol : Solver) (st : TrackerState) (dets : List DetectBox) :
    TrackerState × List TrackOut :=
  let h9 := heap9 cfg sol st dets
  let tf := trackedFinal cfg sol st dets
  ({ heap := h9, tracked_tracks := tf, lost_tracks := lostFinal cfg sol st dets,
     removed_tracks := removedFinal cfg sol st dets, frame_id := st.frame_id + 1,
     next_id := (spawnStep cfg sol st dets).2.1 },
   tf.filterMap fun t =>
     let d := getTrack h9 t
     if d.is_activated then
       some { track_id := d.track_id, class_id := d.class_id, score := d.score,
              ox := d.tlwh_x, oy := d.tlwh_y, ow := d.tlwh_w, oh := d.tlwh_h }
     else none)

/-- Run a sequence of `update` calls (one detection list per frame). -/
def runScript (cfg : TrackerCfg) (sol : Solver) :
    TrackerState → List (List DetectBox) → TrackerState
  | st, [] => st
  | st, f :: rest => runScript cfg sol (byteUpdate cfg sol st f).1 rest

/-- The tracker states reachable from a fresh `ByteTracker` by `update`
calls with a structurally valid assignment solver at each call. -/
inductive Reach (cfg : TrackerCfg) : TrackerState → Prop where
  | init : Reach cfg initState
  | step : ∀ (st : TrackerState) (sol : Solver) (dets : List DetectBox),
      AssignOk sol → Reach cfg st → Reach cfg (byteUpdate cfg sol st dets).1

/-! ## RknnYolo.py embedding -/

/-- Interpretations of the transcendental `math` functions used by
RknnYolo.py (`exp`, `cos`, `sin`, `log`, `sqrt`) and the constant `math.pi`.
Theorems below hold for an arbitrary interpretation, hence in particular for
the real functions; concrete evaluations instantiate a stub whose value at
the points actually evaluated agrees with the real function wherever the
statement depends on it. -/
structure MathOps where
  exp : ℚ → ℚ
  cos : ℚ → ℚ
  sin : ℚ → ℚ
  log : ℚ → ℚ
  sqrt : ℚ → ℚ
  pi : ℚ

/-- `RKNN_YOLO._sigmoid`. -/
def sigmoid (M : MathOps) (x : ℚ) : ℚ := 1 / (1 + M.exp (-x))

/-- The `CSXYWHR` helper class (class, score, center, size, rotation). -/
structure CSXYWHR where
  classId : ℤ
  score : ℚ
  x : ℚ
  y : ℚ
  w : ℚ
  h : ℚ
  angle : ℚ
deriving DecidableEq, Repr

/-- `RKNN_YOLO._get_covariance_matrix`. -/
def getCovariance (M : MathOps) (b : CSXYWHR) : ℚ × ℚ × ℚ :=
  let a := b.w
  let b2 := b.h
  let c := b.angle
  let cosv := M.cos c
  let sinv := M.sin c
  (a * cosv ^ 2 + b2 * sinv ^ 2, a * sinv ^ 2 + b2 * cosv ^ 2, (a - b2) * cosv * sinv)

/-- `RKNN_YOLO._probiou(obb1, obb2, eps=1e-7)` (lines 110-131), with the
clamp of the Bhattacharyya term to `[eps, 100]`. -/
def probiou (M : MathOps) (obb1 obb2 : CSXYWHR) : ℚ :=
  let eps : ℚ := 1 / 10000000
  let x1 := obb1.x
  let y1 := obb1.y
  let x2 := obb2.x
  let y2 := obb2.y
  let v1 := getCovariance M obb1
  let v2 := getCovariance M obb2
  let a1 := v1.1
  let b1 := v1.2.1
  let c1 := v1.2.2
  let a2 := v2.1
  let b2 := v2.2.1
  let c2 := v2.2.2
  let t1 := (((a1 + a2) * (y1 - y2) ^ 2 + (b1 + b2) * (x1 - x2) ^ 2) /
      ((a1 + a2) * (b1 + b2) - (c1 + c2) ^ 2 + eps)) * (1/4)
  let t2 := (((c1 + c2) * (x2 - x1) * (y1 - y2)) /
      ((a1 + a2) * (b1 + b2) - (c1 + c2) ^ 2 + eps)) * (1/2)
  let temp1 := if 0 < a1 * b1 - c1 ^ 2 then a1 * b1 - c1 ^ 2 else 0
  let temp2 := if 0 < a2 * b2 - c2 ^ 2 then a2 * b2 - c2 ^ 2 else 0
  let t3 := M.log ((((a1 + a2) * (b1 + b2) - (c1 + c2) ^ 2) /
      (4 * M.sqrt (temp1 * temp2) + eps)) + eps) * (1/2)
  let bd := if 100 < t1 + t2 + t3 then (100 : ℚ)
    else if t1 + t2 + t3 < eps then eps else t1 + t2 + t3
  let hd := M.sqrt (1 - M.exp (-bd) + eps)
  1 - hd

/-- The key of Python's `sorted(boxes, key=lambda x: x.score, reverse=True)`:
`a` sorts no later than `b` when `b.score ≤ a.score`. -/
def scoreGe (a b : CSXYWHR) : Prop := b.score ≤ a.score

instance : DecidableRel scoreGe := fun a b => inferInstanceAs (Decidable (b.score ≤ a.score))

instance : IsTotal CSXYWHR scoreGe := ⟨fun a b => le_total b.score a.score⟩

instance : IsTrans CSXYWHR scoreGe := ⟨fun _ _ _ h1 h2 => le_trans h2 h1⟩

/-- Python's `sorted(..., key=score, reverse=True)`: a stable descending
sort.  `List.insertionSort scoreGe` inserts each element before the first
element of no greater score, so elements of equal score keep their original
relative order, exactly as Python's stable sort does. -/
def sortDesc (l : List CSXYWHR) : List CSXYWHR := List.insertionSort scoreGe l

/-- The inner loop of `_nms_rotated`: mark `classId = -1` on every later box
whose `_probiou` with the kept box exceeds the threshold. -/
def suppress (M : MathOps) (t : ℚ) (lead : CSXYWHR) (l : List CSXYWHR) : List CSXYWHR :=
  l.map fun b => if t < probiou M lead b then { b with classId := -1 } else b

/-- The greedy scan of `_nms_rotated` over the sorted list: keep each box not
yet marked, suppressing the later ones it overlaps. -/
def nmsLoop (M : MathOps) (t : ℚ) : List CSXYWHR → List CSXYWHR
  | [] => []
  | b :: rest =>
      if b.classId ≠ -1 then b :: nmsLoop M t (suppress M t b rest)
      else nmsLoop M t rest
termination_by l => l.length
decreasing_by
  · simp [suppress]
  · simp

/-- `RKNN_YOLO._nms_rotated(boxes, nms_thresh)` (lines 133-144). -/
def nmsRotated (M : MathOps) (boxes : List CSXYWHR) (t : ℚ) : List CSXYWHR :=
  nmsLoop M t (sortDesc boxes)

/-- The model-geometry attributes fixed by `RKNN_YOLO.__init__`
(`head_num`, `map_size`, `strides`, `reg_num`, `class_num`) together with the
two thresholds. -/
structure YoloCfg where
  headNum : ℕ
  mapSize : List (ℕ × ℕ)
  strides : List ℚ
  regNum : ℕ
  classNum : ℕ
  objectThresh : ℚ
  nmsThresh : ℚ
deriving DecidableEq, Repr

/-- The values set in `RKNN_YOLO.__init__` with default thresholds 0.45. -/
def defaultYoloCfg : YoloCfg :=
  { headNum := 3, mapSize := [(80, 80), (40, 40), (20, 20)], strides := [8, 16, 32],
    regNum := 16, classNum := 1, objectThresh := 9/20, nmsThresh := 9/20 }

/-- `RKNN_YOLO._generate_meshgrid`. -/
def meshgrid (cfg : YoloCfg) : List ℚ :=
  ((List.range cfg.headNum).map fun index =>
    let mh := (cfg.mapSize.getD index (0, 0)).1
    let mw := (cfg.mapSize.getD index (0, 0)).2
    ((List.range mh).map fun i =>
      ((List.range mw).map fun j => [(j : ℚ) + 1/2, (i : ℚ) + 1/2]).flatten).flatten).flatten

/-- The per-cell class confidence and class index (lines 224-237): for one
class, sigmoid of the single logit; otherwise arg-max of the raw logits
(strict improvement, first class initialises) followed by sigmoid. -/
def clsMaxOf (M : MathOps) (cfg : YoloCfg) (cls : List ℚ) (mh mw h w : ℕ) : ℚ × ℤ :=
  if cfg.classNum = 1 then
    (sigmoid M (cls.getD (0 * (mh * mw) + h * mw + w) 0), 0)
  else
    let r := (List.range cfg.classNum).foldl
      (fun (acc : ℚ × ℤ) cl =>
        let v := cls.getD (cl * (mh * mw) + h * mw + w) 0
        if cl = 0 then (v, 0) else if acc.1 < v then (v, (cl : ℤ)) else acc)
      (0, 0)
    (sigmoid M r.1, r.2)

/-- One edge-distance DFL decode (lines 241-252 for one `lc`): the first
inner loop exponentiates the 16 logits *in place* in the regression buffer
while accumulating their sum; the second reads the written values back to
form the softmax expectation. -/
def dflStep (M : MathOps) (cfg : YoloCfg) (mh mw h w lc : ℕ) (reg : List ℚ) :
    List ℚ × ℚ :=
  let idx := fun df => ((lc * cfg.regNum) + df) * (mh * mw) + h * mw + w
  let p := (List.range cfg.regNum).foldl
    (fun (acc : List ℚ × ℚ) df =>
      let temp := M.exp (acc.1.getD (idx df) 0)
      (acc.1.set (idx df) temp, acc.2 + temp))
    (reg, 0)
  let locval := (List.range cfg.regNum).foldl
    (fun s df => s + p.1.getD (idx df) 0 / p.2 * (df : ℚ)) 0
  (p.1, locval)

/-- The four edge distances of a cell, threading the mutated buffer. -/
def regdflOf (M : MathOps) (cfg : YoloCfg) (mh mw h w : ℕ) (reg : List ℚ) :
    List ℚ × List ℚ :=
  (List.range 4).foldl
    (fun (acc : List ℚ × List ℚ) lc =>
      let r := dflStep M cfg mh mw h w lc acc.1
      (r.1, acc.2 ++ [r.2]))
    (reg, [])

/-- One grid cell of `_postprocess` (lines 222-267): threshold test, DFL
decode (mutating the regression buffer), angle decode, and the trigonometric
recombination into a `CSXYWHR` candidate. -/
def processCell (M : MathOps) (cfg : YoloCfg) (index gi h w : ℕ)
    (reg cls ang mesh : List ℚ) : List ℚ × Option CSXYWHR :=
  let mh := (cfg.mapSize.getD index (0, 0)).1
  let mw := (cfg.mapSize.getD index (0, 0)).2
  let cm := clsMaxOf M cfg cls mh mw h w
  if cfg.objectThresh < cm.1 then
    let rr := regdflOf M cfg mh mw h w reg
    let angle := (sigmoid M (ang.getD (h * mw + w) 0) - 1/4) * M.pi
    let left := rr.2.getD 0 0
    let top := rr.2.getD 1 0
    let right := rr.2.getD 2 0
    let bottom := rr.2.getD 3 0
    let cosv := M.cos angle
    let sinv := M.sin angle
    let fx := (right - left) / 2
    let fy := (bottom - top) / 2
    let stride := cfg.strides.getD index 0
    let cx := ((fx * cosv - fy * sinv) + mesh.getD gi 0) * stride
    let cy := ((fx * sinv + fy * cosv) + mesh.getD (gi + 1) 0) * stride
    let cw := (left + right) * stride
    let ch := (top + bottom) * stride
    (rr.1, some ⟨cm.2, cm.1, cx, cy, cw, ch, angle⟩)
  else (reg, none)

/-- The cells of one head in scan order. -/
def headCells (mh mw : ℕ) : List (ℕ × ℕ) :=
  ((List.range mh).map fun h => (List.range mw).map fun w => (h, w)).flatten

/-- One head of the `_postprocess` triple loop: thread the head's regression
buffer through its cells (writing it back into the buffer list at the end,
which is where the in-place numpy mutation becomes visible), collect accepted
candidates, advance the global `gridIndex`. -/
def processHead (M : MathOps) (cfg : YoloCfg) (mesh : List ℚ) (index : ℕ)
    (acc : List (List ℚ) × List CSXYWHR × ℕ) : List (List ℚ) × List CSXYWHR × ℕ :=
  let out := acc.1
  let reg := out.getD (index * 2) []
  let cls := out.getD (index * 2 + 1) []
  let ang := out.getD (cfg.headNum * 2 + index) []
  let mh := (cfg.mapSize.getD index (0, 0)).1
  let mw := (cfg.mapSize.getD index (0, 0)).2
  let r := (headCells mh mw).foldl
    (fun (a : List ℚ × List CSXYWHR × ℕ) cell =>
      let pc := processCell M cfg index a.2.2 cell.1 cell.2 a.1 cls ang mesh
      (pc.1, a.2.1 ++ pc.2.toList, a.2.2 + 2))
    (reg, acc.2.1, acc.2.2)
  (out.set (index * 2) r.1, r.2.1, r.2.2)

/-- The full decode loop of `_postprocess` (lines 204-267): final buffers,
candidate list (`detect_result`) and final grid index. -/
def postLoop (M : MathOps) (cfg : YoloCfg) (out : List (List ℚ)) :
    List (List ℚ) × List CSXYWHR × ℕ :=
  (List.range cfg.headNum).foldl (fun acc index => processHead M cfg (meshgrid cfg) index acc)
    (out, [], 0)

/-- The candidate list fed to NMS. -/
def postCands (M : MathOps) (cfg : YoloCfg) (out : List (List ℚ)) : List CSXYWHR :=
  (postLoop M cfg out).2.1

/-- Python float modulo `x % m` for positive `m`: `x - m * ⌊x / m⌋`. -/
def qmod (x m : ℚ) : ℚ := x - m * (⌊x / m⌋ : ℤ)

/-- Lines 272-287: orientation normalisation (`bw_/bh_/bt`) followed by
`_xywhr2xyxyxyxy` (whose NaN/except fallbacks cannot fire over exact
rationals), producing the corner-form `DetectBox`; line 286 stores the
*original* angle. -/
def toDetectBox (M : MathOps) (b : CSXYWHR) : DetectBox :=
  let bw := if b.h < b.w then b.w else b.h
  let bh := if b.h < b.w then b.h else b.w
  let bt := if b.h < b.w then qmod b.angle M.pi else qmod (b.angle + M.pi / 2) M.pi
  let cosA := M.cos bt
  let sinA := M.sin bt
  let w2 := bw / 2
  let h2 := bh / 2
  { classId := b.classId, score := b.score,
    pt1x := b.x - w2 * cosA + h2 * sinA, pt1y := b.y - w2 * sinA - h2 * cosA,
    pt2x := b.x + w2 * cosA + h2 * sinA, pt2y := b.y + w2 * sinA - h2 * cosA,
    pt3x := b.x + w2 * cosA - h2 * sinA, pt3y := b.y + w2 * sinA + h2 * cosA,
    pt4x := b.x - w2 * cosA - h2 * sinA, pt4y := b.y - w2 * sinA + h2 * cosA,
    angle := b.angle }

/-- `RKNN_YOLO._postprocess(out)`: the returned box list together with the
final contents of the caller's buffers (`out[i].reshape(-1)` is a view, so
the in-place regression writes are visible to the caller). -/
def postprocess (M : MathOps) (cfg : YoloCfg) (out : List (List ℚ)) :
    List DetectBox × List (List ℚ) :=
  let lp := postLoop M cfg out
  ((nmsRotated M lp.2.1 cfg.nmsThresh).map (toDetectBox M), lp.1)

/-- One entry of the list built by `detect_and_track`. -/
structure TrackedEntry where
  detect_box : DetectBox
  track_id : ℤ
  class_id : ℤ
  score : ℚ
deriving DecidableEq, Repr

/-- Lines 361-426: associate one tracker result with the best detection box
of the same class by `iou - 0.01 * distance` (strict improvement over an
initial best of 0), falling back to an axis-aligned box synthesised from the
tracked bbox. -/
def matchEntry (M : MathOps) (boxes : List DetectBox) (r : TrackOut) : TrackedEntry :=
  let best := boxes.foldl
    (fun (acc : ℚ × Option DetectBox) box =>
      if box.classId = r.class_id then
        let dcx := (box.pt1x + box.pt2x + box.pt3x + box.pt4x) / 4
        let dcy := (box.pt1y + box.pt2y + box.pt3y + box.pt4y) / 4
        let tcx := r.ox + r.ow / 2
        let tcy := r.oy + r.oh / 2
        let dist := M.sqrt ((dcx - tcx) ^ 2 + (dcy - tcy) ^ 2)
        let dminx := min4 box.pt1x box.pt2x box.pt3x box.pt4x
        let dminy := min4 box.pt1y box.pt2y box.pt3y box.pt4y
        let dmaxx := max4 box.pt1x box.pt2x box.pt3x box.pt4x
        let dmaxy := max4 box.pt1y box.pt2y box.pt3y box.pt4y
        let detArea := (dmaxx - dminx) * (dmaxy - dminy)
        let trkArea := r.ow * r.oh
        let xov := max 0 (min dmaxx (r.ox + r.ow) - max dminx r.ox)
        let yov := max 0 (min dmaxy (r.oy + r.oh) - max dminy r.oy)
        let inter := xov * yov
        let uni := detArea + trkArea - inter
        let iou := inter / (uni + 1 / 1000000)
        let ms := iou - dist / 100
        if acc.1 < ms then (ms, some box) else acc
      else acc)
    (0, none)
  match best.2 with
  | some b => { detect_box := b, track_id := (r.track_id : ℤ), class_id := r.class_id,
                score := r.score }
  | none =>
      { detect_box :=
          { classId := r.class_id, score := r.score,
            pt1x := r.ox, pt1y := r.oy, pt2x := r.ox + r.ow, pt2y := r.oy,
            pt3x := r.ox + r.ow, pt3y := r.oy + r.oh, pt4x := r.ox, pt4y := r.oy + r.oh,
            angle := 0 },
        track_id := (r.track_id : ℤ), class_id := r.class_id, score := r.score }

/-- `RKNN_YOLO.detect_and_track` from the point where `detect` has returned
`boxes` (lines 337-428): the no-tracking passthrough, the early return on an
empty detection list (before `tracker.update` is called), and otherwise the
update followed by the re-association loop. -/
def detectAndTrack (M : MathOps) (cfg : TrackerCfg) (sol : Solver) (withTracking : Bool)
    (st : TrackerState) (boxes : List DetectBox) : TrackerState × List TrackedEntry :=
  if !withTracking then
    (st, boxes.map fun b => { detect_box := b, track_id := -1, class_id := b.classId,
                              score := b.score })
  else if boxes.isEmpty then (st, [])
  else
    let r := byteUpdate cfg sol st boxes
    (r.1, r.2.map (matchEntry M boxes))

/-! ## Concrete fixtures -/

/-- A 20×20 axis-aligned detection at (10,10)-(30,30), class 0, score 0.9. -/
def detP : DetectBox := ⟨0, 9/10, 10, 10, 30, 10, 30, 30, 10, 30, 0⟩

/-- The same box shifted to (12,12)-(32,32), score 0.9. -/
def detP2 : DetectBox := ⟨0, 9/10, 12, 12, 32, 12, 32, 32, 12, 32, 0⟩

/-- A far-away 10×10 box at (100,100), score 0.9. -/
def detQ : DetectBox := ⟨0, 9/10, 100, 100, 110, 100, 110, 110, 100, 110, 0⟩

/-- Another far-away 10×10 box at (200,200), score 0.9. -/
def detR : DetectBox := ⟨0, 9/10, 200, 200, 210, 200, 210, 210, 200, 210, 0⟩

/-- The (10,10)-(30,30) box with a low score 0.45 (< track_thresh). -/
def detPlow : DetectBox := ⟨0, 9/20, 10, 10, 30, 10, 30, 30, 10, 30, 0⟩

/-- `ByteTracker(track_buffer=3)`, other parameters default. -/
def cfgB3 : TrackerCfg := ⟨1/2, 4/5, 3, true⟩

/-- `ByteTracker(track_buffer=1)`, other parameters default. -/
def cfgB1 : TrackerCfg := ⟨1/2, 4/5, 1, true⟩

/-- The id-allocation invariant maintained across `update` calls: collection
members are valid heap identities, active tracks carry a drawn (nonzero) id,
no id exceeds the `STrack._next_id` counter, and distinct objects never share
a nonzero id. -/
def IdInv (st : TrackerState) : Prop :=
  (∀ x ∈ st.tracked_tracks, x < st.heap.length) ∧
  (∀ x ∈ st.lost_tracks, x < st.heap.length) ∧
  (∀ x ∈ st.tracked_tracks, (getTrack st.heap x).track_id ≠ 0) ∧
  (∀ o, o < st.heap.length → (getTrack st.heap o).track_id ≤ st.next_id) ∧
  (∀ o1 o2, o1 < st.heap.length → o2 < st.heap.length → o1 ≠ o2 →
    (getTrack st.heap o1).track_id ≠ 0 → (getTrack st.heap o2).track_id ≠ 0 →
    (getTrack st.heap o1).track_id ≠ (getTrack st.heap o2).track_id)

/-- The relation between a partially suppressed list and the original sorted
list: each position is either untouched or has had `classId := -1` written. -/
def SuppRel (l2 l1 : List CSXYWHR) : Prop :=
  List.Forall₂ (fun b a => b = a ∨ b = { a with classId := -1 }) l2 l1

/-- An interpretation of the transcendental functions used for the concrete
post-processing runs.  It agrees with the real functions at every point where
the runs below evaluate them: `exp 0 = 1` (the only `exp` value the decoded
buffers contain), and `cos`/`sin`/`log`/`sqrt` only influence the geometry of
the candidate boxes, never the buffer writes or the threshold tests at score
logit `0` (`sigmoid 0 = 1/(1+exp 0) = 1/2` exactly). -/
def mops0 : MathOps :=
  ⟨fun x => max x 0 + 1, fun _ => 1, fun _ => 0, fun _ => 0, fun _ => 0, 355/113⟩

/-- A higher-scoring rotated box for the NMS witness. -/
def csA : CSXYWHR := ⟨0, 9/10, 5, 5, 1, 1, 0⟩

/-- A lower-scoring rotated box at the same position (`_probiou` with `csA`
under `mops0` evaluates to `1`). -/
def csB : CSXYWHR := ⟨0, 4/5, 5, 5, 1, 1, 0⟩

/-- A one-head, one-cell, one-bin, one-class geometry: the regression buffer
is `out[0]` (four logits), the class buffer `out[1]` (one logit), the angle
buffer `out[2]` (one logit).  `object_thresh = 1/4 < sigmoid 0`, so the single
cell is accepted. -/
def tinyYolo : YoloCfg := ⟨1, [(1, 1)], [8], 1, 1, 1/4, 1/2⟩

/-- The same geometry with `object_thresh = 2`: no cell can be accepted, so
`_postprocess` must return an empty list. -/
def tinyYolo2 : YoloCfg := ⟨1, [(1, 1)], [8], 1, 1, 2, 1/2⟩

/-- All-zero input buffers for the tiny geometry. -/
def outZ : List (List ℚ) := [[0, 0, 0, 0], [0], [0]]

/-! ## Preliminary theorems -/

theorem diagSolver_ok : AssignOk diagSolver := by
  intro n m A
  refine ⟨by simp [diagSolver], ?_, ?_, ?_⟩
  · intro p hp
    simp only [diagSolver, List.mem_map, List.mem_range] at hp
    obtain ⟨i, hi, rfl⟩ := hp
    exact ⟨lt_of_lt_of_le hi (min_le_left n m), lt_of_lt_of_le hi (min_le_right n m)⟩
  · have : (diagSolver n m A).map Prod.fst = List.range (min n m) := by
      simp [diagSolver, List.map_map, Function.comp_def]
    rw [this]; exact List.nodup_range _
  · have : (diagSolver n m A).map Prod.snd = List.range (min n m) := by
      simp [diagSolver, List.map_map, Function.comp_def]
    rw [this]; exact List.nodup_range _

/-! ## Heap lemmas -/

theorem length_setTrack (h : List STrackData) (o : ℕ) (d : STrackData) :
    (setTrack h o d).length = h.length := List.length_set h o d

theorem getTrack_set_ne {o o2 : ℕ} (h : List STrackData) (d : STrackData) (hne : o ≠ o2) :
    getTrack (setTrack h o d) o2 = getTrack h o2 := by
  simp [getTrack, setTrack, List.getD, List.get?_eq_getElem?, List.getElem?_set_ne hne]

theorem getTrack_set_self {o : ℕ} (h : List STrackData) (d : STrackData) (ho : o < h.length) :
    getTrack (setTrack h o d) o = d := by
  simp [getTrack, setTrack, List.getD, List.get?_eq_getElem?, List.getElem?_set_self, ho]

theorem getTrack_append_left {o : ℕ} (h l : List STrackData) (ho : o < h.length) :
    getTrack (h ++ l) o = getTrack h o := by
  simp [getTrack, List.getD, List.get?_eq_getElem?, List.getElem?_append, ho]

/-- A heap write whose data agrees with the overwritten object on a
projection `F` preserves `F ∘ getTrack` everywhere. -/
theorem getTrack_set_proj {α : Type} (F : STrackData → α) (h : List STrackData) (o o2 : ℕ)
    (d : STrackData) (hd : F d = F (getTrack h o)) :
    F (getTrack (setTrack h o d) o2) = F (getTrack h o2) := by
  rcases eq_or_ne o o2 with rfl | hne
  · rcases lt_or_le o h.length with hlt | hge
    · rw [getTrack_set_self h d hlt, hd]
    · rw [setTrack, List.set_eq_of_length_le hge]
  · rw [getTrack_set_ne h d hne]

theorem getD_mem {α : Type} (l : List α) (i : ℕ) (d : α) (h : i < l.length) :
    l.getD i d ∈ l := by
  rw [List.getD_eq_getElem l d h]
  exact List.getElem_mem h

/-! ## Phase-loop lemmas -/

theorem applyMatches_length (frame : ℕ) (trkOf detOf : ℕ → ℕ) (ps : List (ℕ × ℕ))
    (h : List STrackData) :
    (applyMatches frame trkOf detOf ps h).1.length = h.length := by
  induction ps generalizing h with
  | nil => rfl
  | cons p rest ih => simp only [applyMatches, ih, length_setTrack]

theorem applyMatches_snd (frame : ℕ) (trkOf detOf : ℕ → ℕ) (ps : List (ℕ × ℕ))
    (h : List STrackData) :
    (applyMatches frame trkOf detOf ps h).2 = ps.map fun p => trkOf p.1 := by
  induction ps generalizing h with
  | nil => rfl
  | cons p rest ih => simp only [applyMatches, ih, List.map_cons]

theorem getTrack_applyMatches_ne (frame : ℕ) (trkOf detOf : ℕ → ℕ) (ps : List (ℕ × ℕ))
    (h : List STrackData) (o : ℕ) (hne : ∀ p ∈ ps, trkOf p.1 ≠ o) :
    getTrack (applyMatches frame trkOf detOf ps h).1 o = getTrack h o := by
  induction ps generalizing h with
  | nil => rfl
  | cons p rest ih =>
      rw [applyMatches]
      exact (ih _ fun q hq => hne q (List.mem_cons_of_mem p hq)).trans
        (getTrack_set_ne h _ (hne p (List.mem_cons_self p rest)))

theorem getTrack_applyMatches_proj {α : Type} (F : STrackData → α)
    (hF : ∀ d det fr, F (strackUpdate d det fr) = F d) (frame : ℕ) (trkOf detOf : ℕ → ℕ)
    (ps : List (ℕ × ℕ)) (h : List STrackData) (o : ℕ) :
    F (getTrack (applyMatches frame trkOf detOf ps h).1 o) = F (getTrack h o) := by
  induction ps generalizing h with
  | nil => rfl
  | cons p rest ih =>
      rw [applyMatches]
      exact (ih _).trans (getTrack_set_proj F h _ o _ (hF _ _ _))

theorem applyLost_length (l : List ℕ) (h : List STrackData) :
    (applyLost l h).length = h.length := by
  induction l generalizing h with
  | nil => rfl
  | cons t rest ih => simp only [applyLost, ih, length_setTrack]

theorem getTrack_applyLost_ne (l : List ℕ) (h : List STrackData) (o : ℕ)
    (hne : o ∉ l) :
    getTrack (applyLost l h) o = getTrack h o := by
  induction l generalizing h with
  | nil => rfl
  | cons t rest ih =>
      rw [applyLost]
      exact (ih _ fun hm => hne (List.mem_cons_of_mem t hm)).trans
        (getTrack_set_ne h _ fun he => hne (he ▸ List.mem_cons_self t rest))

theorem getTrack_applyLost_proj {α : Type} (F : STrackData → α)
    (hF : ∀ d, F (markLost d) = F d) (l : List ℕ) (h : List STrackData) (o : ℕ) :
    F (getTrack (applyLost l h) o) = F (getTrack h o) := by
  induction l generalizing h with
  | nil => rfl
  | cons t rest ih =>
      rw [applyLost]
      exact (ih _).trans (getTrack_set_proj F h _ o _ (hF _))

theorem applyRemoved_length (l : List ℕ) (h : List STrackData) :
    (applyRemoved l h).length = h.length := by
  induction l generalizing h with
  | nil => rfl
  | cons t rest ih => simp only [applyRemoved, ih, length_setTrack]

theorem getTrack_applyRemoved_ne (l : List ℕ) (h : List STrackData) (o : ℕ)
    (hne : o ∉ l) :
    getTrack (applyRemoved l h) o = getTrack h o := by
  induction l generalizing h with
  | nil => rfl
  | cons t rest ih =>
      rw [applyRemoved]
      exact (ih _ fun hm => hne (List.mem_cons_of_mem t hm)).trans
        (getTrack_set_ne h _ fun he => hne (he ▸ List.mem_cons_self t rest))

theorem getTrack_applyRemoved_proj {α : Type} (F : STrackData → α)
    (hF : ∀ d, F (markRemoved d) = F d) (l : List ℕ) (h : List STrackData) (o : ℕ) :
    F (getTrack (applyRemoved l h) o) = F (getTrack h o) := by
  induction l generalizing h with
  | nil => rfl
  | cons t rest ih =>
      rw [applyRemoved]
      exact (ih _).trans (getTrack_set_proj F h _ o _ (hF _))

theorem applyEvict_length (maxLost frame : ℕ) (l : List ℕ) (h : List STrackData) :
    (applyEvict maxLost frame l h).1.length = h.length := by
  induction l generalizing h with
  | nil => rfl
  | cons t rest ih =>
      rw [applyEvict]
      split
      · simp only [ih, length_setTrack]
      · exact ih h

theorem getTrack_applyEvict_ne (maxLost frame : ℕ) (l : List ℕ) (h : List STrackData)
    (o : ℕ) (hne : o ∉ l) :
    getTrack (applyEvict maxLost frame l h).1 o = getTrack h o := by
  induction l generalizing h with
  | nil => rfl
  | cons t rest ih =>
      have ht : t ≠ o := fun he => hne (he ▸ List.mem_cons_self t rest)
      have hr : o ∉ rest := fun hm => hne (List.mem_cons_of_mem t hm)
      rw [applyEvict]
      split
      · exact (ih _ hr).trans (getTrack_set_ne h _ ht)
      · exact ih h hr

theorem getTrack_applyEvict_proj {α : Type} (F : STrackData → α)
    (hF : ∀ d, F (markRemoved d) = F d) (maxLost frame : ℕ) (l : List ℕ)
    (h : List STrackData) (o : ℕ) :
    F (getTrack (applyEvict maxLost frame l h).1 o) = F (getTrack h o) := by
  induction l generalizing h with
  | nil => rfl
  | cons t rest ih =>
      rw [applyEvict]
      split
      · exact (ih _).trans (getTrack_set_proj F h _ o _ (hF _))
      · exact ih h

theorem applyEvict_snd_subset (maxLost frame : ℕ) (l : List ℕ) (h : List STrackData) :
    ∀ x ∈ (applyEvict maxLost frame l h).2, x ∈ l := by
  induction l generalizing h with
  | nil => intro x hx; exact absurd hx (List.not_mem_nil x)
  | cons t rest ih =>
      intro x hx
      rw [applyEvict] at hx
      revert hx
      split
      · intro hx
        rcases List.mem_cons.mp hx with rfl | hx
        · exact List.mem_cons_self x rest
        · exact List.mem_cons_of_mem t (ih _ x hx)
      · intro hx
        exact List.mem_cons_of_mem t (ih h x hx)

theorem spawnRec_length (cfg : TrackerCfg) (frame : ℕ) (hsD ud : List ℕ)
    (h : List STrackData) (n : ℕ) :
    (spawnRec cfg frame hsD ud h n).1.length = h.length := by
  induction ud generalizing h n with
  | nil => rfl
  | cons i rest ih =>
      rw [spawnRec]
      split
      · simp only [ih, length_setTrack]
      · exact ih h n

theorem getTrack_spawnRec_ne (cfg : TrackerCfg) (frame : ℕ) (hsD ud : List ℕ)
    (h : List STrackData) (n : ℕ) (o : ℕ) (hne : ∀ i ∈ ud, hsD.getD i 0 ≠ o) :
    getTrack (spawnRec cfg frame hsD ud h n).1 o = getTrack h o := by
  induction ud generalizing h n with
  | nil => rfl
  | cons i rest ih =>
      have hi : hsD.getD i 0 ≠ o := hne i (List.mem_cons_self i rest)
      have hr : ∀ j ∈ rest, hsD.getD j 0 ≠ o := fun j hj => hne j (List.mem_cons_of_mem i hj)
      rw [spawnRec]
      split
      · exact (ih _ _ hr).trans (getTrack_set_ne h _ hi)
      · exact ih h n hr

theorem getTrack_spawnRec_proj {α : Type} (F : STrackData → α)
    (hF : ∀ d k f, F (strackActivate d k f) = F d) (cfg : TrackerCfg) (frame : ℕ)
    (hsD ud : List ℕ) (h : List STrackData) (n : ℕ) (o : ℕ) :
    F (getTrack (spawnRec cfg frame hsD ud h n).1 o) = F (getTrack h o) := by
  induction ud generalizing h n with
  | nil => rfl
  | cons i rest ih =>
      rw [spawnRec]
      split
      · exact (ih _ _).trans (getTrack_set_proj F h _ o _ (hF _ _ _))
      · exact ih h n

/-- When every listed detection passes the score re-check (as is always the
case for the high-score list), the spawn loop draws exactly the ids
`n+1 … n+|ud|` in order and activates exactly the listed detections. -/
theorem spawnRec_spec (cfg : TrackerCfg) (frame : ℕ) (hsD ud : List ℕ)
    (h : List STrackData) (n : ℕ)
    (hpass : ∀ i ∈ ud, cfg.track_thresh ≤ (getTrack h (hsD.getD i 0)).score) :
    (spawnRec cfg frame hsD ud h n).2.1 = n + ud.length ∧
    (spawnRec cfg frame hsD ud h n).2.2.1 = List.range' (n + 1) ud.length ∧
    (spawnRec cfg frame hsD ud h n).2.2.2 = ud.map fun i => hsD.getD i 0 := by
  induction ud generalizing h n with
  | nil => exact ⟨rfl, rfl, rfl⟩
  | cons i rest ih =>
      have hc := hpass i (List.mem_cons_self i rest)
      rw [spawnRec, if_pos hc]
      have hrest : ∀ j ∈ rest,
          cfg.track_thresh ≤
            (getTrack (setTrack h (hsD.getD i 0)
              (strackActivate (getTrack h (hsD.getD i 0)) (n + 1) frame)) (hsD.getD j 0)).score := by
        intro j hj
        have := getTrack_set_proj (F := STrackData.score) h (hsD.getD i 0) (hsD.getD j 0)
          (strackActivate (getTrack h (hsD.getD i 0)) (n + 1) frame) rfl
        rw [this]
        exact hpass j (List.mem_cons_of_mem i hj)
      obtain ⟨e1, e2, e3⟩ := ih _ (n + 1) hrest
      refine ⟨?_, ?_, ?_⟩
      · simp only [e1, List.length_cons]
        omega
      · simp only [e2, List.map_cons, List.length_cons]
        rw [List.range'_succ (n + 1) rest.length 1]
      · simp only [e3, List.map_cons]

theorem spawnRec_oids_subset (cfg : TrackerCfg) (frame : ℕ) (hsD ud : List ℕ)
    (h : List STrackData) (n : ℕ) :
    ∀ x ∈ (spawnRec cfg frame hsD ud h n).2.2.2, ∃ i ∈ ud, x = hsD.getD i 0 := by
  induction ud generalizing h n with
  | nil => intro x hx; exact absurd hx (List.not_mem_nil x)
  | cons i rest ih =>
      intro x hx
      rw [spawnRec] at hx
      revert hx
      split
      · intro hx
        rcases List.mem_cons.mp hx with rfl | hx
        · exact ⟨i, List.mem_cons_self i rest, rfl⟩
        · obtain ⟨j, hj, he⟩ := ih _ _ x hx
          exact ⟨j, List.mem_cons_of_mem i hj, he⟩
      · intro hx
        obtain ⟨j, hj, he⟩ := ih h n x hx
        exact ⟨j, List.mem_cons_of_mem i hj, he⟩

/-- Positional characterisation of the spawn loop: the `k`-th listed detection
ends up activated with id `n + k + 1`. -/
theorem spawnRec_get_pos (cfg : TrackerCfg) (frame : ℕ) (hsD ud : List ℕ)
    (h : List STrackData) (n : ℕ)
    (hND : (ud.map fun i => hsD.getD i 0).Nodup)
    (hpass : ∀ i ∈ ud, cfg.track_thresh ≤ (getTrack h (hsD.getD i 0)).score)
    (hlt : ∀ i ∈ ud, hsD.getD i 0 < h.length) :
    ∀ k, (hk : k < ud.length) →
      getTrack (spawnRec cfg frame hsD ud h n).1 (hsD.getD ud[k] 0) =
        strackActivate (getTrack h (hsD.getD ud[k] 0)) (n + k + 1) frame := by
  induction ud generalizing h n with
  | nil => intro k hk; exact absurd hk (Nat.not_lt_zero k)
  | cons i rest ih =>
      have hc := hpass i (List.mem_cons_self i rest)
      have hilt := hlt i (List.mem_cons_self i rest)
      have hND2 : ((hsD.getD i 0) :: rest.map fun j => hsD.getD j 0).Nodup := by
        simpa only [List.map_cons] using hND
      have hnd2 : hsD.getD i 0 ∉ rest.map fun j => hsD.getD j 0 := (List.nodup_cons.mp hND2).1
      have hndrest : (rest.map fun j => hsD.getD j 0).Nodup := (List.nodup_cons.mp hND2).2
      intro k hk
      rw [spawnRec, if_pos hc]
      set h2 := setTrack h (hsD.getD i 0)
        (strackActivate (getTrack h (hsD.getD i 0)) (n + 1) frame) with hh2
      have hscore2 : ∀ j ∈ rest,
          cfg.track_thresh ≤ (getTrack h2 (hsD.getD j 0)).score := by
        intro j hj
        have := getTrack_set_proj (F := STrackData.score) h (hsD.getD i 0) (hsD.getD j 0)
          (strackActivate (getTrack h (hsD.getD i 0)) (n + 1) frame) rfl
        rw [hh2, this]
        exact hpass j (List.mem_cons_of_mem i hj)
      have hlt2 : ∀ j ∈ rest, hsD.getD j 0 < h2.length := by
        intro j hj
        rw [hh2, length_setTrack]
        exact hlt j (List.mem_cons_of_mem i hj)
      match k with
      | 0 =>
          have hne : ∀ j ∈ rest, hsD.getD j 0 ≠ hsD.getD i 0 := by
            intro j hj he
            exact hnd2 (he ▸ List.mem_map_of_mem (fun j2 => hsD.getD j2 0) hj)
          have huntouched := getTrack_spawnRec_ne cfg frame hsD rest h2 (n + 1)
            (hsD.getD i 0) hne
          simp only [List.getElem_cons_zero]
          rw [huntouched, hh2, getTrack_set_self h _ hilt]
      | k + 1 =>
          have hk2 : k < rest.length := by simpa using hk
          have := ih h2 (n + 1) hndrest hscore2 hlt2 k hk2
          simp only [List.getElem_cons_succ]
          rw [this]
          have hne : hsD.getD rest[k] 0 ≠ hsD.getD i 0 := by
            intro he
            exact hnd2 (he ▸ List.mem_map_of_mem (fun j2 => hsD.getD j2 0)
              (List.getElem_mem hk2))
          rw [hh2, getTrack_set_ne h _ (fun he => hne he.symm)]
          congr 1
          omega

/-- Once an object is Removed, the eviction loop keeps it Removed. -/
theorem applyEvict_state_removed (maxLost frame : ℕ) (l : List ℕ) (h : List STrackData)
    (t : ℕ) (hstate : (getTrack h t).state = TrackState.Removed) :
    (getTrack (applyEvict maxLost frame l h).1 t).state = TrackState.Removed := by
  induction l generalizing h with
  | nil => exact hstate
  | cons s rest ih =>
      rw [applyEvict]
      split
      · refine ih _ ?_
        rcases eq_or_ne s t with rfl | hne
        · rcases lt_or_le s h.length with hlt | hge
          · rw [getTrack_set_self h _ hlt, markRemoved]
          · rw [setTrack, List.set_eq_of_length_le hge]; exact hstate
        · rw [getTrack_set_ne h _ hne]; exact hstate
      · exact ih h hstate

/-- A listed object whose timeout condition holds is marked Removed by the
eviction loop and appended to its removed list. -/
theorem applyEvict_mem_removes (maxLost frame : ℕ) (l : List ℕ) (h : List STrackData)
    (t : ℕ) (ht : t ∈ l) (htlen : t < h.length)
    (hcond : (maxLost : ℤ) < (frame : ℤ) - ((getTrack h t).end_frame : ℤ)) :
    (getTrack (applyEvict maxLost frame l h).1 t).state = TrackState.Removed ∧
    t ∈ (applyEvict maxLost frame l h).2 := by
  induction l generalizing h with
  | nil => exact absurd ht (List.not_mem_nil t)
  | cons s rest ih =>
      rcases eq_or_ne s t with rfl | hne
      · rw [applyEvict, if_pos hcond]
        constructor
        · apply applyEvict_state_removed
          rw [getTrack_set_self h _ htlen, markRemoved]
        · exact List.mem_cons_self s _
      · have ht2 : t ∈ rest := by
          rcases List.mem_cons.mp ht with he | hm
          · exact absurd he.symm hne
          · exact hm
        rw [applyEvict]
        split
        · have hget := @getTrack_set_ne s t h
            (markRemoved (getTrack h s)) hne
          have := ih (setTrack h s (markRemoved (getTrack h s))) ht2
            (by rw [length_setTrack]; exact htlen) (by rw [hget]; exact hcond)
          exact ⟨this.1, List.mem_cons_of_mem s this.2⟩
        · exact ih h ht2 htlen hcond

/-- An object whose timeout condition fails is untouched by the eviction loop
and not appended to its removed list. -/
theorem applyEvict_not_due (maxLost frame : ℕ) (l : List ℕ) (h : List STrackData)
    (t : ℕ)
    (hcond : ¬ (maxLost : ℤ) < (frame : ℤ) - ((getTrack h t).end_frame : ℤ)) :
    getTrack (applyEvict maxLost frame l h).1 t = getTrack h t ∧
    t ∉ (applyEvict maxLost frame l h).2 := by
  induction l generalizing h with
  | nil => exact ⟨rfl, List.not_mem_nil t⟩
  | cons s rest ih =>
      rcases eq_or_ne s t with rfl | hne
      · rw [applyEvict, if_neg hcond]
        exact ih h hcond
      · rw [applyEvict]
        split
        · have hget := @getTrack_set_ne s t h
            (markRemoved (getTrack h s)) hne
          have := ih (setTrack h s (markRemoved (getTrack h s)))
            (by rw [hget]; exact hcond)
          refine ⟨(this.1).trans hget, ?_⟩
          intro hm
          rcases List.mem_cons.mp hm with he | hm2
          · exact hne he.symm
          · exact this.2 hm2
        · exact ih h hcond

/-- The line-654 loop only appends, so membership in the accumulated list is
preserved. -/
theorem mem_foldl_lostAppend (rm : List ℕ) (l : List ℕ) (acc : List ℕ) (a : ℕ)
    (h : a ∈ acc) :
    a ∈ l.foldl
      (fun acc2 t => if !acc2.contains t && !rm.contains t then acc2 ++ [t] else acc2) acc := by
  induction l generalizing acc with
  | nil => exact h
  | cons s rest ih =>
      simp only [List.foldl_cons]
      split
      · exact ih _ (List.mem_append_left _ h)
      · exact ih _ h

/-! ## Write-target analysis of the pipeline -/

theorem trackedL_sub (st : TrackerState) (dets : List DetectBox) :
    ∀ t ∈ trackedL st dets, t ∈ st.tracked_tracks :=
  fun _ ht => List.mem_of_mem_filter ht

theorem unconfL_sub (st : TrackerState) (dets : List DetectBox) :
    ∀ t ∈ unconfL st dets, t ∈ st.tracked_tracks :=
  fun _ ht => List.mem_of_mem_filter ht

theorem mem_detOids {st : TrackerState} {dets : List DetectBox} {d : ℕ}
    (hd : d ∈ detOids st dets) :
    st.heap.length ≤ d ∧ d < st.heap.length + dets.length := by
  rw [detOids] at hd
  exact (List.mem_range'_1).mp hd

theorem highD_sub (cfg : TrackerCfg) (st : TrackerState) (dets : List DetectBox) :
    ∀ d ∈ highD cfg st dets, d ∈ detOids st dets :=
  fun _ hd => List.mem_of_mem_filter hd

theorem lowD_sub (cfg : TrackerCfg) (st : TrackerState) (dets : List DetectBox) :
    ∀ d ∈ lowD cfg st dets, d ∈ detOids st dets :=
  fun _ hd => List.mem_of_mem_filter hd

theorem s1um_lt (cfg : TrackerCfg) (sol : Solver) (st : TrackerState) (dets : List DetectBox) :
    ∀ i ∈ s1um cfg sol st dets, i < (trackedL st dets).length := by
  intro i hi
  rw [s1um] at hi
  split at hi
  · exact List.mem_range.mp (List.mem_of_mem_filter hi)
  · exact List.mem_range.mp hi

theorem s1ud_lt (cfg : TrackerCfg) (sol : Solver) (st : TrackerState) (dets : List DetectBox) :
    ∀ i ∈ s1ud cfg sol st dets, i < (highD cfg st dets).length := by
  intro i hi
  rw [s1ud] at hi
  split at hi
  · exact List.mem_range.mp (List.mem_of_mem_filter hi)
  · exact List.mem_range.mp hi

theorem s1matches_bound {cfg : TrackerCfg} {sol : Solver} {st : TrackerState}
    {dets : List DetectBox} (hsol : AssignOk sol) :
    ∀ p ∈ s1matches cfg sol st dets,
      p.1 < (trackedL st dets).length ∧ p.2 < (highD cfg st dets).length := by
  intro p hp
  have hp2 : p ∈ s1pairs cfg sol st dets := List.mem_of_mem_filter hp
  rw [s1pairs] at hp2
  split at hp2
  · exact (hsol _ _ _).2.1 p hp2
  · exact absurd hp2 (List.not_mem_nil p)

theorem s2matches_bound {cfg : TrackerCfg} {sol : Solver} {st : TrackerState}
    {dets : List DetectBox} (hsol : AssignOk sol) :
    ∀ p ∈ s2matches cfg sol st dets,
      p.1 < (s1um cfg sol st dets).length ∧ p.2 < (lowD cfg st dets).length := by
  intro p hp
  have hp2 : p ∈ s2pairs cfg sol st dets := List.mem_of_mem_filter hp
  rw [s2pairs] at hp2
  split at hp2
  · exact (hsol _ _ _).2.1 p hp2
  · exact absurd hp2 (List.not_mem_nil p)

theorem ucMatches_bound {cfg : TrackerCfg} {sol : Solver} {st : TrackerState}
    {dets : List DetectBox} (hsol : AssignOk sol) :
    ∀ p ∈ ucMatches cfg sol st dets,
      p.1 < (unconfL st dets).length ∧ p.2 < (highD cfg st dets).length := by
  intro p hp
  have hp2 : p ∈ ucPairs cfg sol st dets := List.mem_of_mem_filter hp
  rw [ucPairs] at hp2
  split at hp2
  · exact (hsol _ _ _).2.1 p hp2
  · exact absurd hp2 (List.not_mem_nil p)

theorem s1lostOids_sub (cfg : TrackerCfg) (sol : Solver) (st : TrackerState)
    (dets : List DetectBox) :
    ∀ x ∈ s1lostOids cfg sol st dets, x ∈ st.tracked_tracks := by
  intro x hx
  rw [s1lostOids] at hx
  split at hx
  · obtain ⟨i, hi, rfl⟩ := List.mem_map.mp hx
    exact trackedL_sub st dets _ (getD_mem _ _ _ (s1um_lt cfg sol st dets i hi))
  · exact absurd hx (List.not_mem_nil x)

theorem s2lostOids_sub (cfg : TrackerCfg) (sol : Solver) (st : TrackerState)
    (dets : List DetectBox) :
    ∀ x ∈ s2lostOids cfg sol st dets, x ∈ st.tracked_tracks := by
  intro x hx
  rw [s2lostOids] at hx
  split at hx
  · obtain ⟨i, hi, rfl⟩ := List.mem_map.mp hx
    have hi2 : i < (s1um cfg sol st dets).length :=
      List.mem_range.mp (List.mem_of_mem_filter hi)
    have hmem : (s1um cfg sol st dets).getD i 0 ∈ s1um cfg sol st dets :=
      getD_mem _ _ _ hi2
    exact trackedL_sub st dets _
      (getD_mem _ _ _ (s1um_lt cfg sol st dets _ hmem))
  · obtain ⟨i, hi, rfl⟩ := List.mem_map.mp hx
    exact trackedL_sub st dets _ (getD_mem _ _ _ (s1um_lt cfg sol st dets i hi))

theorem ucRemovedOids_sub (cfg : TrackerCfg) (sol : Solver) (st : TrackerState)
    (dets : List DetectBox) :
    ∀ x ∈ ucRemovedOids cfg sol st dets, x ∈ st.tracked_tracks := by
  intro x hx
  rw [ucRemovedOids] at hx
  split at hx
  · obtain ⟨i, hi, rfl⟩ := List.mem_map.mp hx
    have hi2 : i < (unconfL st dets).length :=
      List.mem_range.mp (List.mem_of_mem_filter hi)
    exact unconfL_sub st dets _ (getD_mem _ _ _ hi2)
  · exact unconfL_sub st dets x hx

/-- No phase before eviction writes to an object outside
`self.tracked_tracks`. -/
theorem getTrack_heap7_nontracked (cfg : TrackerCfg) (sol : Solver) (st : TrackerState)
    (dets : List DetectBox) (hsol : AssignOk sol) (o : ℕ)
    (hot : o ∉ st.tracked_tracks) :
    getTrack (heap7 cfg sol st dets) o = getTrack (heap1 st dets) o := by
  have hne3 : ∀ p ∈ ucMatches cfg sol st dets, (unconfL st dets).getD p.1 0 ≠ o := by
    intro p hp he
    refine hot ?_
    rw [← he]
    exact unconfL_sub st dets _ (getD_mem _ _ _ ((ucMatches_bound hsol) p hp).1)
  have hne2 : ∀ p ∈ s2matches cfg sol st dets,
      (trackedL st dets).getD ((s1um cfg sol st dets).getD p.1 0) 0 ≠ o := by
    intro p hp he
    refine hot ?_
    rw [← he]
    exact trackedL_sub st dets _ (getD_mem _ _ _ (s1um_lt cfg sol st dets _
      (getD_mem _ _ _ ((s2matches_bound hsol) p hp).1)))
  have hne1 : ∀ p ∈ s1matches cfg sol st dets, (trackedL st dets).getD p.1 0 ≠ o := by
    intro p hp he
    refine hot ?_
    rw [← he]
    exact trackedL_sub st dets _ (getD_mem _ _ _ ((s1matches_bound hsol) p hp).1)
  rw [heap7]
  rw [getTrack_applyRemoved_ne _ _ _
    (fun hm => hot (ucRemovedOids_sub cfg sol st dets o hm))]
  rw [ucUpd]
  rw [getTrack_applyMatches_ne _ _ _ _ _ _ hne3]
  rw [heap5]
  rw [getTrack_applyLost_ne _ _ _
    (fun hm => hot (s2lostOids_sub cfg sol st dets o hm))]
  rw [s2upd]
  rw [getTrack_applyMatches_ne _ _ _ _ _ _ hne2]
  rw [heap3]
  rw [getTrack_applyLost_ne _ _ _
    (fun hm => hot (s1lostOids_sub cfg sol st dets o hm))]
  rw [s1upd]
  exact getTrack_applyMatches_ne _ _ _ _ _ _ hne1

/-- A pre-existing object outside `self.tracked_tracks` keeps its pre-call
data up to the eviction loop. -/
theorem getTrack_heap7_old (cfg : TrackerCfg) (sol : Solver) (st : TrackerState)
    (dets : List DetectBox) (hsol : AssignOk sol) (o : ℕ)
    (hot : o ∉ st.tracked_tracks) (holen : o < st.heap.length) :
    getTrack (heap7 cfg sol st dets) o = getTrack st.heap o := by
  rw [getTrack_heap7_nontracked cfg sol st dets hsol o hot, heap1]
  exact getTrack_append_left st.heap _ holen

/-- Additionally excluding `self.lost_tracks` protects the object through
eviction as well. -/
theorem getTrack_evStep_nontracked (cfg : TrackerCfg) (sol : Solver) (st : TrackerState)
    (dets : List DetectBox) (hsol : AssignOk sol) (o : ℕ)
    (hot : o ∉ st.tracked_tracks) (hol : o ∉ st.lost_tracks) :
    getTrack (evStep cfg sol st dets).1 o = getTrack (heap1 st dets) o := by
  rw [evStep, getTrack_applyEvict_ne _ _ _ _ _ hol]
  exact getTrack_heap7_nontracked cfg sol st dets hsol o hot

/-- Additionally excluding `self.lost_tracks` protects the object through
eviction as well. -/
theorem getTrack_evStep_old (cfg : TrackerCfg) (sol : Solver) (st : TrackerState)
    (dets : List DetectBox) (hsol : AssignOk sol) (o : ℕ)
    (hot : o ∉ st.tracked_tracks) (hol : o ∉ st.lost_tracks) (holen : o < st.heap.length) :
    getTrack (evStep cfg sol st dets).1 o = getTrack st.heap o := by
  rw [evStep, getTrack_applyEvict_ne _ _ _ _ _ hol]
  exact getTrack_heap7_old cfg sol st dets hsol o hot holen

/-- The spawn loop writes only to freshly allocated detection objects. -/
theorem spawn_target_ge (cfg : TrackerCfg) (sol : Solver) (st : TrackerState)
    (dets : List DetectBox) :
    ∀ i ∈ s1ud cfg sol st dets, st.heap.length ≤ (highD cfg st dets).getD i 0 := by
  intro i hi
  have hmem : (highD cfg st dets).getD i 0 ∈ highD cfg st dets :=
    getD_mem _ _ _ (s1ud_lt cfg sol st dets i hi)
  exact (mem_detOids (highD_sub cfg st dets _ hmem)).1

/-- A pre-existing object outside both collections is completely untouched by
the whole `update` call. -/
theorem getTrack_heap9_old (cfg : TrackerCfg) (sol : Solver) (st : TrackerState)
    (dets : List DetectBox) (hsol : AssignOk sol) (o : ℕ)
    (hot : o ∉ st.tracked_tracks) (hol : o ∉ st.lost_tracks) (holen : o < st.heap.length) :
    getTrack (heap9 cfg sol st dets) o = getTrack st.heap o := by
  have hne : ∀ i ∈ s1ud cfg sol st dets, (highD cfg st dets).getD i 0 ≠ o := by
    intro i hi he
    have := spawn_target_ge cfg sol st dets i hi
    rw [he] at this
    exact absurd this (Nat.not_le_of_lt holen)
  rw [heap9, spawnStep]
  rw [getTrack_spawnRec_ne _ _ _ _ _ _ _ hne]
  exact getTrack_evStep_old cfg sol st dets hsol o hot hol holen

/-- The final heap length: the old objects plus one per detection. -/
theorem heap9_length (cfg : TrackerCfg) (sol : Solver) (st : TrackerState)
    (dets : List DetectBox) :
    (heap9 cfg sol st dets).length = st.heap.length + dets.length := by
  rw [heap9, spawnStep, spawnRec_length, evStep, applyEvict_length, heap7,
    applyRemoved_length, ucUpd, applyMatches_length, heap5, applyLost_length, s2upd,
    applyMatches_length, heap3, applyLost_length, s1upd, applyMatches_length, heap1]
  simp

/-- Members of the incoming `self.lost_tracks` stay in the outgoing
`lost_tracks` (the local list starts as a copy and is never pruned). -/
theorem mem_lostFinal_of_mem_lost (cfg : TrackerCfg) (sol : Solver) (st : TrackerState)
    (dets : List DetectBox) {t : ℕ} (ht : t ∈ st.lost_tracks) :
    t ∈ lostFinal cfg sol st dets := by
  rw [lostFinal]
  exact mem_foldl_lostAppend _ _ _ _
    (List.mem_append_left _ (List.mem_append_left _ ht))

/-- Every member of the outgoing `tracked_tracks` is either an old member of
`self.tracked_tracks` or a freshly allocated detection object. -/
theorem mem_trackedFinal_cases {cfg : TrackerCfg} {sol : Solver} {st : TrackerState}
    {dets : List DetectBox} (hsol : AssignOk sol) {x : ℕ}
    (hx : x ∈ trackedFinal cfg sol st dets) :
    x ∈ st.tracked_tracks ∨
      (st.heap.length ≤ x ∧ x < st.heap.length + dets.length) := by
  rw [trackedFinal] at hx
  rcases List.mem_append.mp hx with hx | hx
  · exact Or.inl (List.mem_of_mem_filter hx)
  · rw [activatedAll] at hx
    rcases List.mem_append.mp hx with hx | hx4
    · rcases List.mem_append.mp hx with hx | hx3
      · rcases List.mem_append.mp hx with hx1 | hx2
        · rw [s1upd, applyMatches_snd] at hx1
          obtain ⟨p, hp, rfl⟩ := List.mem_map.mp hx1
          exact Or.inl (trackedL_sub st dets _
            (getD_mem _ _ _ ((s1matches_bound hsol) p hp).1))
        · rw [s2upd, applyMatches_snd] at hx2
          obtain ⟨p, hp, rfl⟩ := List.mem_map.mp hx2
          exact Or.inl (trackedL_sub st dets _ (getD_mem _ _ _
            (s1um_lt cfg sol st dets _
              (getD_mem _ _ _ ((s2matches_bound hsol) p hp).1))))
      · rw [ucUpd, applyMatches_snd] at hx3
        obtain ⟨p, hp, rfl⟩ := List.mem_map.mp hx3
        exact Or.inl (unconfL_sub st dets _
          (getD_mem _ _ _ ((ucMatches_bound hsol) p hp).1))
    · rw [spawnStep] at hx4
      obtain ⟨i, hi, rfl⟩ := spawnRec_oids_subset _ _ _ _ _ _ _ hx4
      exact Or.inr (mem_detOids (highD_sub cfg st dets _
        (getD_mem _ _ _ (s1ud_lt cfg sol st dets i hi))))

theorem byteUpdate_heap (cfg : TrackerCfg) (sol : Solver) (st : TrackerState)
    (dets : List DetectBox) :
    (byteUpdate cfg sol st dets).1.heap = heap9 cfg sol st dets := rfl

theorem byteUpdate_tracked (cfg : TrackerCfg) (sol : Solver) (st : TrackerState)
    (dets : List DetectBox) :
    (byteUpdate cfg sol st dets).1.tracked_tracks = trackedFinal cfg sol st dets := rfl

theorem byteUpdate_lost (cfg : TrackerCfg) (sol : Solver) (st : TrackerState)
    (dets : List DetectBox) :
    (byteUpdate cfg sol st dets).1.lost_tracks = lostFinal cfg sol st dets := rfl

theorem byteUpdate_removed (cfg : TrackerCfg) (sol : Solver) (st : TrackerState)
    (dets : List DetectBox) :
    (byteUpdate cfg sol st dets).1.removed_tracks = removedFinal cfg sol st dets := rfl

theorem byteUpdate_frame (cfg : TrackerCfg) (sol : Solver) (st : TrackerState)
    (dets : List DetectBox) :
    (byteUpdate cfg sol st dets).1.frame_id = st.frame_id + 1 := rfl

theorem byteUpdate_next (cfg : TrackerCfg) (sol : Solver) (st : TrackerState)
    (dets : List DetectBox) :
    (byteUpdate cfg sol st dets).1.next_id = (spawnStep cfg sol st dets).2.1 := rfl

/-- One `update` call seen from a track sitting in `self.lost_tracks` and not
in `self.tracked_tracks`: it stays in `lost_tracks`, keeps its `end_frame`,
and its state becomes Removed exactly when the new frame exceeds
`end_frame + max_time_lost`, otherwise it is untouched. -/
theorem lost_track_step (cfg : TrackerCfg) (sol : Solver) (st : TrackerState)
    (dets : List DetectBox) (hsol : AssignOk sol) (t E : ℕ)
    (ht : t ∈ st.lost_tracks) (hnt : t ∉ st.tracked_tracks) (htlen : t < st.heap.length)
    (hend : (getTrack st.heap t).end_frame = E) :
    t ∈ (byteUpdate cfg sol st dets).1.lost_tracks ∧
    t ∉ (byteUpdate cfg sol st dets).1.tracked_tracks ∧
    t < (byteUpdate cfg sol st dets).1.heap.length ∧
    (getTrack (byteUpdate cfg sol st dets).1.heap t).end_frame = E ∧
    (getTrack (byteUpdate cfg sol st dets).1.heap t).state =
      (if (cfg.max_time_lost : ℤ) < ((st.frame_id + 1 : ℕ) : ℤ) - (E : ℤ)
       then TrackState.Removed else (getTrack st.heap t).state) := by
  have h7 : getTrack (heap7 cfg sol st dets) t = getTrack st.heap t :=
    getTrack_heap7_old cfg sol st dets hsol t hnt htlen
  have h7len : (heap7 cfg sol st dets).length = st.heap.length + dets.length := by
    rw [heap7, applyRemoved_length, ucUpd, applyMatches_length, heap5, applyLost_length,
      s2upd, applyMatches_length, heap3, applyLost_length, s1upd, applyMatches_length, heap1]
    simp
  have hspawn_ne : ∀ i ∈ s1ud cfg sol st dets, (highD cfg st dets).getD i 0 ≠ t := by
    intro i hi he
    have := spawn_target_ge cfg sol st dets i hi
    rw [he] at this
    exact absurd this (Nat.not_le_of_lt htlen)
  have h9ev : getTrack (heap9 cfg sol st dets) t = getTrack (evStep cfg sol st dets).1 t := by
    rw [heap9, spawnStep]
    exact getTrack_spawnRec_ne _ _ _ _ _ _ _ hspawn_ne
  refine ⟨?_, ?_, ?_, ?_, ?_⟩
  · rw [byteUpdate_lost]
    exact mem_lostFinal_of_mem_lost cfg sol st dets ht
  · rw [byteUpdate_tracked]
    intro hmem
    rcases mem_trackedFinal_cases hsol hmem with hc | hc
    · exact hnt hc
    · exact absurd hc.1 (Nat.not_le_of_lt htlen)
  · rw [byteUpdate_heap, heap9_length]
    omega
  · rw [byteUpdate_heap, h9ev, evStep]
    have := getTrack_applyEvict_proj (F := STrackData.end_frame) (fun d => rfl)
      cfg.max_time_lost (st.frame_id + 1) st.lost_tracks (heap7 cfg sol st dets) t
    rw [this, h7, hend]
  · rw [byteUpdate_heap, h9ev, evStep]
    by_cases hdue : (cfg.max_time_lost : ℤ) < ((st.frame_id + 1 : ℕ) : ℤ) - (E : ℤ)
    · rw [if_pos hdue]
      have hcond : (cfg.max_time_lost : ℤ) <
          ((st.frame_id + 1 : ℕ) : ℤ) - ((getTrack (heap7 cfg sol st dets) t).end_frame : ℤ) := by
        rw [h7, hend]; exact hdue
      exact (applyEvict_mem_removes cfg.max_time_lost (st.frame_id + 1) st.lost_tracks
        (heap7 cfg sol st dets) t ht (by rw [h7len]; omega) hcond).1
    · rw [if_neg hdue]
      have hcond : ¬ (cfg.max_time_lost : ℤ) <
          ((st.frame_id + 1 : ℕ) : ℤ) - ((getTrack (heap7 cfg sol st dets) t).end_frame : ℤ) := by
        rw [h7, hend]; exact hdue
      have := (applyEvict_not_due cfg.max_time_lost (st.frame_id + 1) st.lost_tracks
        (heap7 cfg sol st dets) t hcond).1
      rw [this, h7]

/-- Multi-frame behaviour of a lost track under any detection script: its
state after the run is Removed exactly when the final frame counter exceeds
`end_frame + max_time_lost`.  The dichotomy hypothesis carries the induction. -/
theorem lost_track_run (cfg : TrackerCfg) (sol : Solver) (hsol : AssignOk sol) :
    ∀ (frames : List (List DetectBox)) (st : TrackerState) (t E : ℕ),
      t ∈ st.lost_tracks → t ∉ st.tracked_tracks → t < st.heap.length →
      (getTrack st.heap t).end_frame = E →
      (((getTrack st.heap t).state = TrackState.Lost ∧
          ((st.frame_id : ℤ) - E ≤ cfg.max_time_lost)) ∨
        ((getTrack st.heap t).state = TrackState.Removed ∧
          ((cfg.max_time_lost : ℤ) < (st.frame_id : ℤ) - E))) →
      (getTrack (runScript cfg sol st frames).heap t).state =
        (if (cfg.max_time_lost : ℤ) < ((st.frame_id + frames.length : ℕ) : ℤ) - (E : ℤ)
         then TrackState.Removed else TrackState.Lost) := by
  intro frames
  induction frames with
  | nil =>
      intro st t E _ _ _ _ hdi
      rcases hdi with ⟨hs, hle⟩ | ⟨hs, hlt⟩
      · rw [runScript]
        simp only [List.length_nil, Nat.add_zero]
        rw [if_neg (by omega), hs]
      · rw [runScript]
        simp only [List.length_nil, Nat.add_zero]
        rw [if_pos (by omega), hs]
  | cons f rest ih =>
      intro st t E ht hnt htlen hend hdi
      obtain ⟨hl2, hnt2, hlen2, hend2, hstate2⟩ :=
        lost_track_step cfg sol st f hsol t E ht hnt htlen hend
      rw [runScript]
      have hframe2 : (byteUpdate cfg sol st f).1.frame_id = st.frame_id + 1 :=
        byteUpdate_frame cfg sol st f
      have hdi2 : ((getTrack (byteUpdate cfg sol st f).1.heap t).state = TrackState.Lost ∧
            (((byteUpdate cfg sol st f).1.frame_id : ℤ) - E ≤ cfg.max_time_lost)) ∨
          ((getTrack (byteUpdate cfg sol st f).1.heap t).state = TrackState.Removed ∧
            ((cfg.max_time_lost : ℤ) < ((byteUpdate cfg sol st f).1.frame_id : ℤ) - E) ) := by
        rw [hframe2, hstate2]
        by_cases hdue : (cfg.max_time_lost : ℤ) < ((st.frame_id + 1 : ℕ) : ℤ) - (E : ℤ)
        · right
          rw [if_pos hdue]
          exact ⟨rfl, by push_cast at hdue ⊢; omega⟩
        · left
          rw [if_neg hdue]
          rcases hdi with ⟨hs, _⟩ | ⟨_, hlt⟩
          · exact ⟨hs, by push_cast at hdue ⊢; omega⟩
          · exact absurd (by push_cast at hlt ⊢; omega) hdue
      have := ih (byteUpdate cfg sol st f).1 t E hl2 hnt2 hlen2 hend2 hdi2
      rw [this, hframe2]
      have harith : st.frame_id + 1 + rest.length = st.frame_id + (f :: rest).length := by
        simp only [List.length_cons]
        omega
      rw [harith]

/-! ## Claim theorems -/

section ConcreteEval

/- Batteries marks the `Rat` field operations `@[irreducible]`; concrete
executions of the pipeline are decided by the kernel, which needs them
unfolded. -/
set_option allowUnsafeReducibility true
attribute [local semireducible] Rat.add Rat.sub Rat.mul Rat.inv

/-- **C1** (code_bug evidence): after two frames that both contain the same
high-confidence detection, the matched track object (heap identity 0) occurs
twice in `tracked_tracks`: line 658 retains it (it is in neither local
`lost_tracks` nor `removed_tracks`) and line 659 appends it again via
`activated_tracks`.  This violates the claimed invariant that a track occurs
at most once in a collection.  (Every solver decision in this run is a forced
1×1 matching, so the run is solver-independent.) -/
theorem C1_tracked_duplicate :
    (runScript defaultCfg diagSolver initState [[detP], [detP]]).tracked_tracks = [0, 0] ∧
    ¬ (runScript defaultCfg diagSolver initState [[detP], [detP]]).tracked_tracks.Nodup := by
  have he : (runScript defaultCfg diagSolver initState [[detP], [detP]]).tracked_tracks
      = [0, 0] := by decide
  refine ⟨he, ?_⟩
  rw [he]
  decide

/-- **C2** (counterexample): with `track_buffer = 3`, a track matched at
frames 1-2 and never again is Tracked after call 2, enters Lost on the call
with `frame_id = 3` (so L = 3), is still Lost after call 5, and is already
Removed after call 6 = L + 3 — not on the call with `frame_id = L + B + 1 = 7`
as the claim states ("not on any earlier or later call").  The only
threshold-surviving association in this run is a forced 1×1 matching. -/
theorem C2_counterexample :
    (getTrack (runScript cfgB3 diagSolver initState [[detP], [detP]]).heap 0).state
        = TrackState.Tracked ∧
    (getTrack (runScript cfgB3 diagSolver initState [[detP], [detP], []]).heap 0).state
        = TrackState.Lost ∧
    (getTrack (runScript cfgB3 diagSolver initState
        [[detP], [detP], [], [], []]).heap 0).state = TrackState.Lost ∧
    (getTrack (runScript cfgB3 diagSolver initState
        [[detP], [detP], [], [], [], []]).heap 0).state = TrackState.Removed := by
  refine ⟨by decide, by decide, by decide, by decide⟩

end ConcreteEval

/-- **C2** (amended): a track that sits in `lost_tracks` in state Lost with
`end_frame = E` (mark_lost records the frame of the track's *last update*, so
E = L - 1 when the track entered Lost on the call with frame_id L), is not
aliased into `tracked_tracks`, and is not yet due, transitions to Removed
exactly on the first update call whose frame_id exceeds
`E + track_buffer` — i.e. frame_id = L + track_buffer, one frame earlier than
the claimed L + track_buffer + 1 — and stays Lost on every earlier call,
under any detection script (lost tracks are never re-associated by this
implementation) and any structurally valid assignment solver. -/
theorem C2_eviction_timing (cfg : TrackerCfg) (sol : Solver) (hsol : AssignOk sol)
    (st : TrackerState) (t E : ℕ) (frames : List (List DetectBox))
    (h1 : t ∈ st.lost_tracks) (h2 : t ∉ st.tracked_tracks) (h3 : t < st.heap.length)
    (h4 : (getTrack st.heap t).state = TrackState.Lost)
    (h5 : (getTrack st.heap t).end_frame = E)
    (h6 : (st.frame_id : ℤ) - (E : ℤ) ≤ (cfg.max_time_lost : ℤ)) :
    (getTrack (runScript cfg sol st frames).heap t).state =
      (if (cfg.max_time_lost : ℤ) < ((st.frame_id + frames.length : ℕ) : ℤ) - (E : ℤ)
       then TrackState.Removed else TrackState.Lost) :=
  lost_track_run cfg sol hsol frames st t E h1 h2 h3 h5 (Or.inl ⟨h4, h6⟩)

section ConcreteEval2

set_option allowUnsafeReducibility true
attribute [local semireducible] Rat.add Rat.sub Rat.mul Rat.inv

/-- Witness for `C2_eviction_timing`: the track lost at frame 3 of the
concrete run (end_frame 2, buffer 3) is Removed after three further empty
frames (final frame 6 > 2 + 3). -/
theorem C2_eviction_timing_witness :
    (getTrack (runScript cfgB3 diagSolver
        (runScript cfgB3 diagSolver initState [[detP], [detP], []])
        [[], [], []]).heap 0).state = TrackState.Removed := by
  have h := C2_eviction_timing cfgB3 diagSolver diagSolver_ok
    (runScript cfgB3 diagSolver initState [[detP], [detP], []]) 0 2 [[], [], []]
    (by decide) (by decide) (by decide) (by decide) (by decide) (by decide)
  rw [if_pos (by decide)] at h
  exact h

/-- **C9** (counterexample): with the default `match_thresh = 0.8`, the
frame-2 detection at (12,12,20,20) has IoU 81/119 ≈ 0.68 < 0.8 with the
frame-1 track box, so the association is rejected: the frame-2 result
carries the freshly spawned `track_id = 2`, not the retained id 1 that the
claim asserts. -/
theorem C9_counterexample :
    ((byteUpdate defaultCfg diagSolver (runScript defaultCfg diagSolver initState [[detP]])
        [detP2]).2.map TrackOut.track_id) = [2] := by
  decide

/-- **C9** (amended): the actual three-frame behaviour.  Frame 1 emits
exactly one track with id 1 (tracklet_len 0).  At frame 2 the IoU between the
track's box and the shifted detection is 81/119, below `match_thresh = 4/5`,
so the track is marked Lost (absent from the result) and the detection spawns
a brand-new track with id 2 (tracklet_len 0), which is the only emitted
result.  At frame 3 (empty detection list) that track is marked Lost as well
and the emitted result set is empty. -/
theorem C9_scenario :
    ((byteUpdate defaultCfg diagSolver initState [detP]).2.map
        fun r => (r.track_id, r.class_id, r.ox, r.oy, r.ow, r.oh)) = [(1, 0, 10, 10, 20, 20)] ∧
    iouPair (tlbrOf (heap1 (runScript defaultCfg diagSolver initState [[detP]]) [detP2]) 0)
        (tlbrOf (heap1 (runScript defaultCfg diagSolver initState [[detP]]) [detP2]) 1)
      = 81/119 ∧
    ((81 : ℚ)/119 < defaultCfg.match_thresh) ∧
    ((byteUpdate defaultCfg diagSolver (runScript defaultCfg diagSolver initState [[detP]])
        [detP2]).2.map fun r => (r.track_id, r.ox)) = [(2, 12)] ∧
    (getTrack (runScript defaultCfg diagSolver initState [[detP], [detP2]]).heap 0).state
      = TrackState.Lost ∧
    (getTrack (runScript defaultCfg diagSolver initState [[detP], [detP2]]).heap 0).tracklet_len
      = 0 ∧
    (byteUpdate defaultCfg diagSolver
        (runScript defaultCfg diagSolver initState [[detP], [detP2]]) []).2 = [] ∧
    (getTrack (runScript defaultCfg diagSolver initState [[detP], [detP2], []]).heap 1).state
      = TrackState.Lost := by
  refine ⟨by decide, by decide, by decide, by decide, by decide, by decide, by decide, by decide⟩

end ConcreteEval2

theorem detOids_nodup (st : TrackerState) (dets : List DetectBox) :
    (detOids st dets).Nodup := by
  rw [detOids]
  exact List.nodup_range' _ _

theorem highD_nodup (cfg : TrackerCfg) (st : TrackerState) (dets : List DetectBox) :
    (highD cfg st dets).Nodup :=
  List.Nodup.filter _ (detOids_nodup st dets)

theorem s1ud_nodup (cfg : TrackerCfg) (sol : Solver) (st : TrackerState)
    (dets : List DetectBox) : (s1ud cfg sol st dets).Nodup := by
  rw [s1ud]
  split
  · exact List.Nodup.filter _ (List.nodup_range _)
  · exact List.nodup_range _

theorem getD_inj_of_nodup {l : List ℕ} (hnd : l.Nodup) {i j : ℕ}
    (hi : i < l.length) (hj : j < l.length) (hne : i ≠ j) :
    l.getD i 0 ≠ l.getD j 0 := by
  rw [List.getD_eq_getElem l 0 hi, List.getD_eq_getElem l 0 hj]
  intro he
  exact hne ((List.Nodup.getElem_inj_iff hnd).mp he)

/-- The spawn loop's write targets are pairwise distinct detection objects. -/
theorem spawnTargets_nodup (cfg : TrackerCfg) (sol : Solver) (st : TrackerState)
    (dets : List DetectBox) :
    ((s1ud cfg sol st dets).map fun i => (highD cfg st dets).getD i 0).Nodup := by
  refine List.Nodup.map_on ?_ (s1ud_nodup cfg sol st dets)
  intro i hi j hj he
  by_contra hne
  exact getD_inj_of_nodup (highD_nodup cfg st dets) (s1ud_lt cfg sol st dets i hi)
    (s1ud_lt cfg sol st dets j hj) hne he

/-- Every object at or beyond the pre-call heap length carries `track_id = 0`
in the detection-extended heap (freshly constructed `STrack`s). -/
theorem heap1_track_id_fresh (st : TrackerState) (dets : List DetectBox) (d : ℕ)
    (hd : st.heap.length ≤ d) :
    (getTrack (heap1 st dets) d).track_id = 0 := by
  rw [heap1, getTrack, List.getD, List.get?_eq_getElem?,
    List.getElem?_append_right (by simpa using hd)]
  rcases hlt : (dets.map detToSTrack)[d - st.heap.length]? with _ | v
  · rfl
  · have hv : v ∈ dets.map detToSTrack := by
      have := List.getElem?_mem hlt
      exact this
    obtain ⟨det, _, rfl⟩ := List.mem_map.mp hv
    simp [Option.getD, detToSTrack]

/-- Ditto for `state`/`is_activated`/`score`: the freshly constructed
detection objects in the extended heap. -/
theorem heap1_det_entry (st : TrackerState) (dets : List DetectBox) (d : ℕ)
    (hd : st.heap.length ≤ d) (hlt : d < st.heap.length + dets.length) :
    getTrack (heap1 st dets) d = detToSTrack (dets.getD (d - st.heap.length) default) := by
  have hidx : d - st.heap.length < dets.length := by omega
  rw [heap1, getTrack, List.getD, List.get?_eq_getElem?,
    List.getElem?_append_right (by simpa using hd)]
  rw [List.getElem?_map]
  rw [List.getElem?_eq_getElem hidx]
  rw [List.getD_eq_getElem _ _ hidx]
  rfl

theorem heap7_length (cfg : TrackerCfg) (sol : Solver) (st : TrackerState)
    (dets : List DetectBox) :
    (heap7 cfg sol st dets).length = st.heap.length + dets.length := by
  rw [heap7, applyRemoved_length, ucUpd, applyMatches_length, heap5, applyLost_length,
    s2upd, applyMatches_length, heap3, applyLost_length, s1upd, applyMatches_length, heap1]
  simp

theorem evStep_length (cfg : TrackerCfg) (sol : Solver) (st : TrackerState)
    (dets : List DetectBox) :
    (evStep cfg sol st dets).1.length = st.heap.length + dets.length := by
  rw [evStep, applyEvict_length]
  exact heap7_length cfg sol st dets

/-- High-score detections pass the score filter by construction. -/
theorem highD_score (cfg : TrackerCfg) (st : TrackerState) (dets : List DetectBox) :
    ∀ d ∈ highD cfg st dets, cfg.track_thresh ≤ (getTrack (heap1 st dets) d).score := by
  intro d hd
  have := (List.mem_filter.mp hd).2
  exact of_decide_eq_true this

/-- **C3** (amended): under any structurally valid solver and any pre-call
state whose collections hold in-range identities: (a) every high-confidence
detection left unmatched by stage 1 (which coincides with "unmatched after
all stages" here: stage 2 sees only low-confidence detections, and the
unconfirmed pass does not update the stage-1 unmatched-detection list) is
activated as a brand-new track — final state Tracked, activated, track id
strictly above the pre-call id counter, and a member of the new
`tracked_tracks`; (b) a high-confidence detection matched in stage 1 is not
activated: its `track_id` stays 0 and it does not enter `tracked_tracks`.
The claim's stronger clause — that a detection matched in *any* stage never
spawns — fails for the unconfirmed pass, see `C3_counterexample`. -/
theorem C3_spawn (cfg : TrackerCfg) (sol : Solver) (st : TrackerState)
    (dets : List DetectBox) (hsol : AssignOk sol)
    (hWFt : ∀ x ∈ st.tracked_tracks, x < st.heap.length)
    (hWFl : ∀ x ∈ st.lost_tracks, x < st.heap.length) :
    (∀ i ∈ s1ud cfg sol st dets,
      (getTrack (heap9 cfg sol st dets) ((highD cfg st dets).getD i 0)).state
          = TrackState.Tracked ∧
      (getTrack (heap9 cfg sol st dets) ((highD cfg st dets).getD i 0)).is_activated
          = true ∧
      st.next_id < (getTrack (heap9 cfg sol st dets)
          ((highD cfg st dets).getD i 0)).track_id ∧
      (highD cfg st dets).getD i 0 ∈ trackedFinal cfg sol st dets) ∧
    (∀ i, i < (highD cfg st dets).length → i ∉ s1ud cfg sol st dets →
      (getTrack (heap9 cfg sol st dets) ((highD cfg st dets).getD i 0)).track_id = 0 ∧
      (highD cfg st dets).getD i 0 ∉ trackedFinal cfg sol st dets) := by
  have hdetlen : ∀ d2 ∈ highD cfg st dets,
      st.heap.length ≤ d2 ∧ d2 < st.heap.length + dets.length :=
    fun d2 hd2 => mem_detOids (highD_sub cfg st dets _ hd2)
  have hnt : ∀ d2 ∈ highD cfg st dets, d2 ∉ st.tracked_tracks := by
    intro d2 hd2 hm
    exact absurd (hWFt _ hm) (not_lt.mpr (hdetlen _ hd2).1)
  have hnl : ∀ d2 ∈ highD cfg st dets, d2 ∉ st.lost_tracks := by
    intro d2 hd2 hm
    exact absurd (hWFl _ hm) (not_lt.mpr (hdetlen _ hd2).1)
  have hpass : ∀ i ∈ s1ud cfg sol st dets,
      cfg.track_thresh ≤
        (getTrack (evStep cfg sol st dets).1 ((highD cfg st dets).getD i 0)).score := by
    intro i hi
    have hmem := getD_mem _ _ 0 (s1ud_lt cfg sol st dets i hi)
    rw [getTrack_evStep_nontracked cfg sol st dets hsol _ (hnt _ hmem) (hnl _ hmem)]
    exact highD_score cfg st dets _ hmem
  have hltS : ∀ i ∈ s1ud cfg sol st dets,
      (highD cfg st dets).getD i 0 < (evStep cfg sol st dets).1.length := by
    intro i hi
    rw [evStep_length]
    have hmem := getD_mem _ _ 0 (s1ud_lt cfg sol st dets i hi)
    exact (hdetlen _ hmem).2
  have hND := spawnTargets_nodup cfg sol st dets
  have hspec := spawnRec_spec cfg (st.frame_id + 1) (highD cfg st dets)
    (s1ud cfg sol st dets) (evStep cfg sol st dets).1 st.next_id hpass
  constructor
  · intro i hi
    obtain ⟨k, hk, hik⟩ := List.getElem_of_mem hi
    have hpos := spawnRec_get_pos cfg (st.frame_id + 1) (highD cfg st dets)
      (s1ud cfg sol st dets) (evStep cfg sol st dets).1 st.next_id hND hpass hltS k hk
    rw [hik] at hpos
    have h9 : getTrack (heap9 cfg sol st dets) ((highD cfg st dets).getD i 0) =
        strackActivate (getTrack (evStep cfg sol st dets).1 ((highD cfg st dets).getD i 0))
          (st.next_id + k + 1) (st.frame_id + 1) := by
      rw [heap9, spawnStep]
      exact hpos
    refine ⟨?_, ?_, ?_, ?_⟩
    · rw [h9]; rfl
    · rw [h9]; rfl
    · rw [h9]
      show st.next_id < st.next_id + k + 1
      omega
    · rw [trackedFinal]
      refine List.mem_append_right _ ?_
      rw [activatedAll]
      refine List.mem_append_right _ ?_
      rw [spawnStep]
      rw [hspec.2.2]
      exact List.mem_map_of_mem _ hi
  · intro i hilen hni
    have hmem := getD_mem _ _ 0 hilen
    have hne : ∀ j ∈ s1ud cfg sol st dets,
        (highD cfg st dets).getD j 0 ≠ (highD cfg st dets).getD i 0 := by
      intro j hj
      exact getD_inj_of_nodup (highD_nodup cfg st dets) (s1ud_lt cfg sol st dets j hj)
        hilen (fun he => hni (he ▸ hj))
    have h9 : getTrack (heap9 cfg sol st dets) ((highD cfg st dets).getD i 0) =
        getTrack (heap1 st dets) ((highD cfg st dets).getD i 0) := by
      rw [heap9, spawnStep, getTrack_spawnRec_ne _ _ _ _ _ _ _ hne]
      exact getTrack_evStep_nontracked cfg sol st dets hsol _ (hnt _ hmem) (hnl _ hmem)
    constructor
    · rw [h9]
      exact heap1_track_id_fresh st dets _ (hdetlen _ hmem).1
    · intro hmem2
      rw [trackedFinal] at hmem2
      rcases List.mem_append.mp hmem2 with hc | hc
      · exact hnt _ hmem (List.mem_of_mem_filter hc)
      · rw [activatedAll] at hc
        rcases List.mem_append.mp hc with hc | hc4
        · rcases List.mem_append.mp hc with hc | hc3
          · rcases List.mem_append.mp hc with hc1 | hc2
            · rw [s1upd, applyMatches_snd] at hc1
              obtain ⟨p, hp, he⟩ := List.mem_map.mp hc1
              refine hnt _ hmem ?_
              rw [← he]
              exact trackedL_sub st dets _
                (getD_mem _ _ _ ((s1matches_bound hsol) p hp).1)
            · rw [s2upd, applyMatches_snd] at hc2
              obtain ⟨p, hp, he⟩ := List.mem_map.mp hc2
              refine hnt _ hmem ?_
              rw [← he]
              exact trackedL_sub st dets _ (getD_mem _ _ _
                (s1um_lt cfg sol st dets _
                  (getD_mem _ _ _ ((s2matches_bound hsol) p hp).1)))
          · rw [ucUpd, applyMatches_snd] at hc3
            obtain ⟨p, hp, he⟩ := List.mem_map.mp hc3
            refine hnt _ hmem ?_
            rw [← he]
            exact unconfL_sub st dets _
              (getD_mem _ _ _ ((ucMatches_bound hsol) p hp).1)
        · rw [spawnStep] at hc4
          obtain ⟨j, hj, he⟩ := spawnRec_oids_subset _ _ _ _ _ _ _ hc4
          exact hne j hj he.symm

/-- On a 1×1 cost matrix, every structurally valid solver returns the unique
full matching. -/
theorem solver_one_one {sol : Solver} (hsol : AssignOk sol) (A : List (List ℚ)) :
    sol 1 1 A = [(0, 0)] := by
  obtain ⟨hlen, hbound, _, _⟩ := hsol 1 1 A
  match hL : sol 1 1 A with
  | [] => rw [hL] at hlen; simp at hlen
  | [p] =>
      have hp := hbound p (by rw [hL]; exact List.mem_singleton_self p)
      have hp0 : p = (0, 0) := by
        obtain ⟨p1, p2⟩ := p
        simp only [Prod.mk.injEq]
        omega
      rw [hp0]
  | p :: q :: rest => rw [hL] at hlen; simp at hlen

theorem tlbrOf_congr {h h2 : List STrackData} {o o2 : ℕ}
    (he : getTrack h o = getTrack h2 o2) : tlbrOf h o = tlbrOf h2 o2 := by
  simp [tlbrOf, he]

theorem mEntry_one (v : ℚ) : mEntry [[v]] 0 0 = v := rfl

/-- **C6** (confirmed): a Tracked, activated track that is the sole member of
`tracked_tracks`, receiving a single detection whose score is below
`track_thresh` but whose axis-aligned IoU with the track's current box (the
box the association code reads via `to_tlbr`, unchanged by `predict`) reaches
`match_thresh`, is matched in the low-confidence second stage: afterwards it
is Tracked, keeps its `track_id`, remains in `tracked_tracks`, the id counter
is untouched, and the detection object spawns no new track (its `track_id`
stays 0). -/
theorem C6_low_conf_recovery (cfg : TrackerCfg) (sol : Solver) (st : TrackerState)
    (d : DetectBox) (t : ℕ) (hsol : AssignOk sol)
    (htr : st.tracked_tracks = [t]) (htlen : t < st.heap.length)
    (hact : (getTrack st.heap t).is_activated = true)
    (hstate : (getTrack st.heap t).state = TrackState.Tracked)
    (hnl : t ∉ st.lost_tracks)
    (hWFl : ∀ x ∈ st.lost_tracks, x < st.heap.length)
    (hscore : (detToSTrack d).score < cfg.track_thresh)
    (hiou : cfg.match_thresh ≤ iouPair (tlbrOf st.heap t) (detTlbr d)) :
    s2matches cfg sol st [d] = [(0, 0)] ∧
    (getTrack (byteUpdate cfg sol st [d]).1.heap t).state = TrackState.Tracked ∧
    (getTrack (byteUpdate cfg sol st [d]).1.heap t).track_id
      = (getTrack st.heap t).track_id ∧
    t ∈ (byteUpdate cfg sol st [d]).1.tracked_tracks ∧
    (byteUpdate cfg sol st [d]).1.next_id = st.next_id ∧
    (getTrack (byteUpdate cfg sol st [d]).1.heap st.heap.length).track_id = 0 := by
  have h1t : getTrack (heap1 st [d]) t = getTrack st.heap t :=
    getTrack_append_left _ _ htlen
  have hlen1 : (heap1 st [d]).length = st.heap.length + 1 := by
    rw [heap1]; simp
  have htL : trackedL st [d] = [t] := by
    rw [trackedL, htr]
    simp [List.filter, h1t, hact]
  have hd1 : getTrack (heap1 st [d]) st.heap.length = detToSTrack d := by
    have := heap1_det_entry st [d] st.heap.length (le_refl _) (by simp)
    simpa using this
  have hdetO : detOids st [d] = [st.heap.length] := by
    rw [detOids]
    rfl
  have hhigh : highD cfg st [d] = [] := by
    rw [highD, hdetO]
    simp [List.filter, hd1, not_le.mpr hscore]
  have hlow : lowD cfg st [d] = [st.heap.length] := by
    rw [lowD, hdetO]
    simp [List.filter, hd1, hscore]
  have hs1run : s1run cfg st [d] = false := by
    rw [s1run, hhigh]
    simp
  have hs1m : s1matches cfg sol st [d] = [] := by
    rw [s1matches, s1pairs, hs1run]
    simp
  have hs1um : s1um cfg sol st [d] = [0] := by
    rw [s1um, hs1run, htL]
    rfl
  have hs1ud : s1ud cfg sol st [d] = [] := by
    rw [s1ud, hs1run, hhigh]
    simp
  have hs1lost : s1lostOids cfg sol st [d] = [] := by
    rw [s1lostOids, hs1run]
    simp
  have hs1upd : s1upd cfg sol st [d] = (heap1 st [d], []) := by
    rw [s1upd, hs1m]
    rfl
  have hheap3 : heap3 cfg sol st [d] = heap1 st [d] := by
    rw [heap3, hs1lost, hs1upd]
    rfl
  have hs2run : s2run cfg sol st [d] = true := by
    rw [s2run, hs1um, hlow]
    rfl
  have htlbr3 : tlbrOf (heap3 cfg sol st [d]) t = tlbrOf st.heap t :=
    tlbrOf_congr (by rw [hheap3, h1t])
  have hdlbr3 : tlbrOf (heap3 cfg sol st [d]) st.heap.length = detTlbr d := by
    simp only [tlbrOf, detTlbr]
    rw [hheap3, hd1]
  have hs2iou : s2iou cfg sol st [d]
      = [[iouPair (tlbrOf st.heap t) (detTlbr d)]] := by
    rw [s2iou, s2rows, hs1um, htL, hlow, iouBatch]
    simp [htlbr3, hdlbr3]
  have hs2pairs : s2pairs cfg sol st [d] = [(0, 0)] := by
    rw [s2pairs, hs2run]
    simp only [if_true]
    rw [hs1um, hlow]
    exact solver_one_one hsol _
  have hs2m : s2matches cfg sol st [d] = [(0, 0)] := by
    rw [s2matches, hs2pairs, hs2iou]
    simp [List.filter, mEntry, hiou]
  have hs2lost : s2lostOids cfg sol st [d] = [] := by
    rw [s2lostOids, hs2run]
    simp only [if_true]
    rw [hs2m, hs1um]
    rfl
  have hget3t : getTrack (heap3 cfg sol st [d]) t = getTrack st.heap t := by
    rw [hheap3, h1t]
  have hget3d : getTrack (heap3 cfg sol st [d]) st.heap.length = detToSTrack d := by
    rw [hheap3, hd1]
  have hupd : getTrack (s2upd cfg sol st [d]).1 t
      = strackUpdate (getTrack st.heap t) (detToSTrack d) (st.frame_id + 1) := by
    rw [s2upd, hs2m, applyMatches, applyMatches]
    have htlt3 : t < ((heap3 cfg sol st [d]).length) := by
      rw [hheap3, hlen1]; omega
    have hrow : (trackedL st [d]).getD ((s1um cfg sol st [d]).getD 0 0) 0 = t := by
      rw [hs1um, htL]
      rfl
    have hcol : (lowD cfg st [d]).getD 0 0 = st.heap.length := by
      rw [hlow]
      rfl
    simp only [hrow, hcol]
    rw [getTrack_set_self _ _ htlt3, hget3t, hget3d]
  have hact2 : (s2upd cfg sol st [d]).2 = [t] := by
    rw [s2upd, applyMatches_snd, hs2m]
    simp
    rw [hs1um, htL]
    rfl
  have hheap5 : heap5 cfg sol st [d] = (s2upd cfg sol st [d]).1 := by
    rw [heap5, hs2lost]
    rfl
  have hunconf : unconfL st [d] = [] := by
    rw [unconfL, htr]
    simp [List.filter, h1t, hact]
  have hucrun : ucRun cfg st [d] = false := by
    rw [ucRun, hunconf]
    simp
  have hucm : ucMatches cfg sol st [d] = [] := by
    rw [ucMatches, ucPairs, hucrun]
    simp
  have hucupd : ucUpd cfg sol st [d] = (heap5 cfg sol st [d], []) := by
    rw [ucUpd, hucm]
    rfl
  have hucrem : ucRemovedOids cfg sol st [d] = [] := by
    rw [ucRemovedOids, hucrun]
    simp [hunconf]
  have hheap7 : heap7 cfg sol st [d] = (s2upd cfg sol st [d]).1 := by
    rw [heap7, hucrem, hucupd, hheap5]
    rfl
  have hlen4 : (s2upd cfg sol st [d]).1.length = st.heap.length + 1 := by
    rw [s2upd, applyMatches_length, hheap3, hlen1]
  have hevt : getTrack (evStep cfg sol st [d]).1 t = getTrack (heap7 cfg sol st [d]) t := by
    rw [evStep]
    exact getTrack_applyEvict_ne _ _ _ _ _ hnl
  have hev_d : getTrack (evStep cfg sol st [d]).1 st.heap.length
      = getTrack (heap7 cfg sol st [d]) st.heap.length := by
    rw [evStep]
    refine getTrack_applyEvict_ne _ _ _ _ _ ?_
    intro hm
    exact absurd (hWFl _ hm) (by omega)
  have hspawn : spawnStep cfg sol st [d]
      = ((evStep cfg sol st [d]).1, st.next_id, [], []) := by
    rw [spawnStep, hs1ud]
    rfl
  have h9t : getTrack (heap9 cfg sol st [d]) t
      = strackUpdate (getTrack st.heap t) (detToSTrack d) (st.frame_id + 1) := by
    rw [heap9, hspawn]
    simp only []
    rw [hevt, hheap7, hupd]
  have h9d : getTrack (heap9 cfg sol st [d]) st.heap.length = detToSTrack d := by
    rw [heap9, hspawn]
    simp only []
    rw [hev_d, hheap7]
    rw [s2upd, hs2m, applyMatches, applyMatches]
    have hrow : (trackedL st [d]).getD ((s1um cfg sol st [d]).getD 0 0) 0 = t := by
      rw [hs1um, htL]
      rfl
    simp only [hrow]
    rw [getTrack_set_ne _ _ (by omega : t ≠ st.heap.length)]
    exact hget3d
  refine ⟨hs2m, ?_, ?_, ?_, ?_, ?_⟩
  · rw [byteUpdate_heap, h9t]
    rfl
  · rw [byteUpdate_heap, h9t]
    rfl
  · rw [byteUpdate_tracked, trackedFinal]
    refine List.mem_append_right _ ?_
    rw [activatedAll, hact2]
    refine List.mem_append_left _ ?_
    refine List.mem_append_left _ ?_
    exact List.mem_append_right _ (List.mem_singleton_self t)
  · rw [byteUpdate_next, hspawn]
  · rw [byteUpdate_heap, h9d]
    rfl

section ConcreteEval3

set_option allowUnsafeReducibility true
attribute [local semireducible] Rat.add Rat.sub Rat.mul Rat.inv

/-- **C3** (counterexample): with `track_buffer = 1`, after three frames
(frame 1: boxes P and Q spawn tracks 1 and 2; frame 2: a far box R plus a
low-score P — stage 1 marks both tracks lost, stage 2 recovers track 1,
leaving it aliased in both `tracked_tracks` and `lost_tracks`; frame 3: P
matches track 1 in stage 1 but the eviction loop then marks the still-lost
alias Removed), track 1 sits in `tracked_tracks` de-activated.  On frame 4
its sole detection (heap id 5) is unmatched in stage 1 (`s1ud = [0]`), is
matched to that unconfirmed track in the unconfirmed pass
(`ucMatches = [(0,0)]`, and track 0's `frame_id` becomes 4), and is
*nevertheless* activated as a brand-new track with fresh id 4 that enters
`tracked_tracks` — a high-confidence detection matched in a stage that still
spawns a new track, refuting the claim.  Every threshold-surviving matching
along this run is the unique optimum of its matrix, so the run agrees with
scipy's solver. -/
theorem C3_counterexample :
    unconfL (runScript cfgB1 diagSolver initState
        [[detP, detQ], [detR, detPlow], [detP]]) [detP] = [0] ∧
    highD cfgB1 (runScript cfgB1 diagSolver initState
        [[detP, detQ], [detR, detPlow], [detP]]) [detP] = [5] ∧
    s1ud cfgB1 diagSolver (runScript cfgB1 diagSolver initState
        [[detP, detQ], [detR, detPlow], [detP]]) [detP] = [0] ∧
    ucMatches cfgB1 diagSolver (runScript cfgB1 diagSolver initState
        [[detP, detQ], [detR, detPlow], [detP]]) [detP] = [(0, 0)] ∧
    (getTrack (runScript cfgB1 diagSolver initState
        [[detP, detQ], [detR, detPlow], [detP], [detP]]).heap 0).frame_id = 4 ∧
    (getTrack (runScript cfgB1 diagSolver initState
        [[detP, detQ], [detR, detPlow], [detP], [detP]]).heap 5).track_id = 4 ∧
    (getTrack (runScript cfgB1 diagSolver initState
        [[detP, detQ], [detR, detPlow], [detP], [detP]]).heap 5).state
      = TrackState.Tracked ∧
    5 ∈ (runScript cfgB1 diagSolver initState
        [[detP, detQ], [detR, detPlow], [detP], [detP]]).tracked_tracks := by
  refine ⟨by decide, by decide, by decide, by decide, by decide, by decide, by decide,
    by decide⟩

/-- Witness for `C6_low_conf_recovery`: the track spawned at frame 1 from
`detP`, fed the same box with score 0.45 at frame 2, stays Tracked with its
original id 1. -/
theorem C6_low_conf_recovery_witness :
    (getTrack (byteUpdate defaultCfg diagSolver
        (byteUpdate defaultCfg diagSolver initState [detP]).1 [detPlow]).1.heap 0).state
      = TrackState.Tracked ∧
    (getTrack (byteUpdate defaultCfg diagSolver
        (byteUpdate defaultCfg diagSolver initState [detP]).1 [detPlow]).1.heap 0).track_id
      = 1 := by
  have hl : (byteUpdate defaultCfg diagSolver initState [detP]).1.lost_tracks = [] := by
    decide
  have h := C6_low_conf_recovery defaultCfg diagSolver
    (byteUpdate defaultCfg diagSolver initState [detP]).1 detPlow 0 diagSolver_ok
    (by decide) (by decide) (by decide) (by decide) (by decide)
    (by rw [hl]; intro x hx; exact absurd hx (List.not_mem_nil x))
    (by decide) (by decide)
  refine ⟨h.2.1, ?_⟩
  rw [h.2.2.1]
  decide

/-- Witness for `C3_spawn` on a fresh tracker receiving two high-confidence
detections: the first (stage-1-unmatched, there being no tracks) is activated
as a new Tracked track with a positive id. -/
theorem C3_spawn_witness :
    (getTrack (heap9 defaultCfg diagSolver initState [detP, detQ])
        ((highD defaultCfg initState [detP, detQ]).getD 0 0)).state
      = TrackState.Tracked ∧
    0 < (getTrack (heap9 defaultCfg diagSolver initState [detP, detQ])
        ((highD defaultCfg initState [detP, detQ]).getD 0 0)).track_id := by
  have h := (C3_spawn defaultCfg diagSolver initState [detP, detQ] diagSolver_ok
    (by simp [initState]) (by simp [initState])).1 0 (by decide)
  exact ⟨h.1, h.2.2.1⟩

end ConcreteEval3

/-- No phase before the spawn loop changes any object's `track_id`
(`STrack.update`, `mark_lost` and `mark_removed` all preserve it). -/
theorem track_id_evStep (cfg : TrackerCfg) (sol : Solver) (st : TrackerState)
    (dets : List DetectBox) (o : ℕ) :
    ((getTrack (evStep cfg sol st dets).1 o).track_id)
      = (getTrack (heap1 st dets) o).track_id := by
  rw [evStep]
  rw [getTrack_applyEvict_proj (F := STrackData.track_id) (fun _ => rfl)]
  rw [heap7]
  rw [getTrack_applyRemoved_proj (F := STrackData.track_id) (fun _ => rfl)]
  rw [ucUpd]
  rw [getTrack_applyMatches_proj (F := STrackData.track_id) (fun _ _ _ => rfl)]
  rw [heap5]
  rw [getTrack_applyLost_proj (F := STrackData.track_id) (fun _ => rfl)]
  rw [s2upd]
  rw [getTrack_applyMatches_proj (F := STrackData.track_id) (fun _ _ _ => rfl)]
  rw [heap3]
  rw [getTrack_applyLost_proj (F := STrackData.track_id) (fun _ => rfl)]
  rw [s1upd]
  rw [getTrack_applyMatches_proj (F := STrackData.track_id) (fun _ _ _ => rfl)]

/-- Members of the outgoing `lost_tracks` come from the incoming
`lost_tracks` or `tracked_tracks`. -/
theorem mem_lostFinal_sub {cfg : TrackerCfg} {sol : Solver} {st : TrackerState}
    {dets : List DetectBox} {x : ℕ} (hx : x ∈ lostFinal cfg sol st dets) :
    x ∈ st.lost_tracks ∨ x ∈ st.tracked_tracks := by
  rw [lostFinal] at hx
  have hgen : ∀ (l acc : List ℕ),
      x ∈ l.foldl (fun acc2 t =>
        if !acc2.contains t && !(removedFinal cfg sol st dets).contains t
        then acc2 ++ [t] else acc2) acc →
      x ∈ acc ∨ x ∈ l := by
    intro l
    induction l with
    | nil => intro acc hacc; exact Or.inl hacc
    | cons s rest ih =>
        intro acc hacc
        simp only [List.foldl_cons] at hacc
        rcases ih _ hacc with hc | hc
        · by_cases hcond : (!acc.contains s
              && !(removedFinal cfg sol st dets).contains s) = true
          · rw [if_pos hcond] at hc
            rcases List.mem_append.mp hc with hc2 | hc2
            · exact Or.inl hc2
            · exact Or.inr (List.mem_cons.mpr (Or.inl (List.mem_singleton.mp hc2)))
          · rw [if_neg hcond] at hc
            exact Or.inl hc
        · exact Or.inr (List.mem_cons_of_mem s hc)
  rcases hgen st.lost_tracks _ hx with hc | hc
  · rw [lostPre] at hc
    rcases List.mem_append.mp hc with hc2 | hc2
    · rcases List.mem_append.mp hc2 with hc3 | hc3
      · exact Or.inl hc3
      · exact Or.inr (s1lostOids_sub cfg sol st dets x hc3)
    · exact Or.inr (s2lostOids_sub cfg sol st dets x hc2)
  · exact Or.inl hc

/-- The spawn-phase characterisation used by the id invariant: writing
targets, drawn ids and the new counter, under a valid solver and in-range
collections. -/
theorem spawn_summary (cfg : TrackerCfg) (sol : Solver) (st : TrackerState)
    (dets : List DetectBox) (hsol : AssignOk sol)
    (hWFt : ∀ x ∈ st.tracked_tracks, x < st.heap.length)
    (hWFl : ∀ x ∈ st.lost_tracks, x < st.heap.length) :
    (spawnStep cfg sol st dets).2.1 = st.next_id + (s1ud cfg sol st dets).length ∧
    spawnIdsOf cfg sol st dets
      = List.range' (st.next_id + 1) (s1ud cfg sol st dets).length ∧
    (spawnStep cfg sol st dets).2.2.2
      = (s1ud cfg sol st dets).map (fun i => (highD cfg st dets).getD i 0) ∧
    (∀ k, (hk : k < (s1ud cfg sol st dets).length) →
      getTrack (heap9 cfg sol st dets)
          ((highD cfg st dets).getD (s1ud cfg sol st dets)[k] 0) =
        strackActivate (getTrack (evStep cfg sol st dets).1
          ((highD cfg st dets).getD (s1ud cfg sol st dets)[k] 0))
          (st.next_id + k + 1) (st.frame_id + 1)) := by
  have hdetlen : ∀ d2 ∈ highD cfg st dets,
      st.heap.length ≤ d2 ∧ d2 < st.heap.length + dets.length :=
    fun d2 hd2 => mem_detOids (highD_sub cfg st dets _ hd2)
  have hnt : ∀ d2 ∈ highD cfg st dets, d2 ∉ st.tracked_tracks := by
    intro d2 hd2 hm
    exact absurd (hWFt _ hm) (not_lt.mpr (hdetlen _ hd2).1)
  have hnl : ∀ d2 ∈ highD cfg st dets, d2 ∉ st.lost_tracks := by
    intro d2 hd2 hm
    exact absurd (hWFl _ hm) (not_lt.mpr (hdetlen _ hd2).1)
  have hpass : ∀ i ∈ s1ud cfg sol st dets,
      cfg.track_thresh ≤
        (getTrack (evStep cfg sol st dets).1 ((highD cfg st dets).getD i 0)).score := by
    intro i hi
    have hmem := getD_mem _ _ 0 (s1ud_lt cfg sol st dets i hi)
    rw [getTrack_evStep_nontracked cfg sol st dets hsol _ (hnt _ hmem) (hnl _ hmem)]
    exact highD_score cfg st dets _ hmem
  have hltS : ∀ i ∈ s1ud cfg sol st dets,
      (highD cfg st dets).getD i 0 < (evStep cfg sol st dets).1.length := by
    intro i hi
    rw [evStep_length]
    have hmem := getD_mem _ _ 0 (s1ud_lt cfg sol st dets i hi)
    exact (hdetlen _ hmem).2
  have hspec := spawnRec_spec cfg (st.frame_id + 1) (highD cfg st dets)
    (s1ud cfg sol st dets) (evStep cfg sol st dets).1 st.next_id hpass
  have hpos := spawnRec_get_pos cfg (st.frame_id + 1) (highD cfg st dets)
    (s1ud cfg sol st dets) (evStep cfg sol st dets).1 st.next_id
    (spawnTargets_nodup cfg sol st dets) hpass hltS
  refine ⟨?_, ?_, ?_, ?_⟩
  · rw [spawnStep]; exact hspec.1
  · rw [spawnIdsOf, spawnStep]; exact hspec.2.1
  · rw [spawnStep]; exact hspec.2.2
  · intro k hk
    rw [heap9, spawnStep]
    exact hpos k hk

/-- One `update` call preserves the id invariant. -/
theorem idInv_step (cfg : TrackerCfg) (sol : Solver) (st : TrackerState)
    (dets : List DetectBox) (hsol : AssignOk sol) (hinv : IdInv st) :
    IdInv (byteUpdate cfg sol st dets).1 := by
  obtain ⟨hWFt, hWFl, hTid, hBound, hInj⟩ := hinv
  obtain ⟨hnext, hids, hoids, hpos⟩ := spawn_summary cfg sol st dets hsol hWFt hWFl
  -- a case analysis oracle: every identity is either a spawn target with a
  -- known position, or keeps its pre-call id
  have hcases : ∀ o : ℕ,
      (∃ k, ∃ hk : k < (s1ud cfg sol st dets).length,
        o = (highD cfg st dets).getD (s1ud cfg sol st dets)[k] 0 ∧
        (getTrack (heap9 cfg sol st dets) o).track_id = st.next_id + k + 1 ∧
        st.heap.length ≤ o) ∨
      ((getTrack (heap9 cfg sol st dets) o).track_id
        = (getTrack (heap1 st dets) o).track_id) := by
    intro o
    by_cases hmem : o ∈ (s1ud cfg sol st dets).map
        (fun i => (highD cfg st dets).getD i 0)
    · obtain ⟨i, hi, he⟩ := List.mem_map.mp hmem
      obtain ⟨k, hk, hik⟩ := List.getElem_of_mem hi
      left
      refine ⟨k, hk, ?_, ?_, ?_⟩
      · rw [hik, he]
      · have := hpos k hk
        rw [hik, he] at this
        rw [this]
        rfl
      · rw [← he]
        exact (mem_detOids (highD_sub cfg st dets _
          (getD_mem _ _ _ (s1ud_lt cfg sol st dets i hi)))).1
    · right
      have hne : ∀ i ∈ s1ud cfg sol st dets, (highD cfg st dets).getD i 0 ≠ o := by
        intro i hi he
        exact hmem (he ▸ List.mem_map_of_mem _ hi)
      rw [heap9, spawnStep, getTrack_spawnRec_ne _ _ _ _ _ _ _ hne]
      exact track_id_evStep cfg sol st dets o
  have hid1 : ∀ o : ℕ, (getTrack (heap1 st dets) o).track_id
      = (if o < st.heap.length then (getTrack st.heap o).track_id else 0) := by
    intro o
    by_cases ho : o < st.heap.length
    · rw [if_pos ho, heap1, getTrack_append_left st.heap _ ho]
    · rw [if_neg ho]
      exact heap1_track_id_fresh st dets o (not_lt.mp ho)
  refine ⟨?_, ?_, ?_, ?_, ?_⟩
  · intro x hx
    rw [byteUpdate_heap, heap9_length]
    rw [byteUpdate_tracked] at hx
    rcases mem_trackedFinal_cases hsol hx with hc | hc
    · have := hWFt x hc; omega
    · omega
  · intro x hx
    rw [byteUpdate_heap, heap9_length]
    rw [byteUpdate_lost] at hx
    rcases mem_lostFinal_sub hx with hc | hc
    · have := hWFl x hc; omega
    · have := hWFt x hc; omega
  · -- an activated member of the new tracked list has a nonzero id
    intro x hx
    rw [byteUpdate_tracked] at hx
    rw [byteUpdate_heap]
    rcases hcases x with ⟨k, hk, _, hidx, _⟩ | hkeep
    · rw [hidx]; omega
    · rw [hkeep, hid1 x]
      rcases mem_trackedFinal_cases hsol hx with hc | hc
      · rw [if_pos (hWFt x hc)]
        exact hTid x hc
      · -- a det-range identity in the new tracked list must be a spawn
        -- target or a stage-matched old track; the only det-range members of
        -- `trackedFinal` are spawn targets, contradiction with `hkeep`
        rw [trackedFinal] at hx
        rcases List.mem_append.mp hx with hx2 | hx2
        · have := hWFt x (List.mem_of_mem_filter hx2); omega
        · rw [activatedAll] at hx2
          rcases List.mem_append.mp hx2 with hx3 | hx4
          · rcases List.mem_append.mp hx3 with hx5 | hx6
            · rcases List.mem_append.mp hx5 with hx7 | hx8
              · rw [s1upd, applyMatches_snd] at hx7
                obtain ⟨p, hp, he⟩ := List.mem_map.mp hx7
                have : x ∈ st.tracked_tracks := by
                  rw [← he]
                  exact trackedL_sub st dets _
                    (getD_mem _ _ _ ((s1matches_bound hsol) p hp).1)
                have := hWFt x this; omega
              · rw [s2upd, applyMatches_snd] at hx8
                obtain ⟨p, hp, he⟩ := List.mem_map.mp hx8
                have : x ∈ st.tracked_tracks := by
                  rw [← he]
                  exact trackedL_sub st dets _ (getD_mem _ _ _
                    (s1um_lt cfg sol st dets _
                      (getD_mem _ _ _ ((s2matches_bound hsol) p hp).1)))
                have := hWFt x this; omega
            · rw [ucUpd, applyMatches_snd] at hx6
              obtain ⟨p, hp, he⟩ := List.mem_map.mp hx6
              have : x ∈ st.tracked_tracks := by
                rw [← he]
                exact unconfL_sub st dets _
                  (getD_mem _ _ _ ((ucMatches_bound hsol) p hp).1)
              have := hWFt x this; omega
          · -- spawn targets contradict the kept-id case: they carry a
            -- fresh positive id, while a det-range kept id is 0
            exfalso
            rw [hoids] at hx4
            obtain ⟨i, hi, he⟩ := List.mem_map.mp hx4
            obtain ⟨k, hk, hik⟩ := List.getElem_of_mem hi
            have hviews := hpos k hk
            rw [hik, he] at hviews
            have hval : (getTrack (heap9 cfg sol st dets) x).track_id
                = st.next_id + k + 1 := by
              rw [hviews]
              rfl
            have h0 : (getTrack (heap1 st dets) x).track_id = 0 := by
              rw [hid1 x, if_neg (by omega)]
            rw [hkeep, h0] at hval
            omega
  · -- bound by the new counter
    intro o ho
    rw [byteUpdate_heap, heap9_length] at ho
    rw [byteUpdate_heap, byteUpdate_next, hnext]
    rcases hcases o with ⟨k, hk, _, hidx, _⟩ | hkeep
    · rw [hidx]; omega
    · rw [hkeep, hid1 o]
      by_cases hlt : o < st.heap.length
      · rw [if_pos hlt]
        have := hBound o hlt
        omega
      · rw [if_neg hlt]
        omega
  · -- injectivity of nonzero ids
    intro o1 o2 h1 h2 hne hz1 hz2
    rw [byteUpdate_heap, heap9_length] at h1 h2
    rw [byteUpdate_heap] at hz1 hz2 ⊢
    rcases hcases o1 with ⟨k1, hk1, he1, hidx1, _⟩ | hkeep1 <;>
      rcases hcases o2 with ⟨k2, hk2, he2, hidx2, _⟩ | hkeep2
    · rw [hidx1, hidx2]
      intro he
      have hkk : k1 = k2 := by omega
      subst hkk
      exact hne (he1.trans he2.symm)
    · rw [hidx1, hkeep2, hid1 o2]
      by_cases hlt : o2 < st.heap.length
      · rw [if_pos hlt]
        have := hBound o2 hlt
        omega
      · rw [if_neg hlt]
        rw [hkeep2, hid1 o2, if_neg hlt] at hz2
        exact absurd rfl hz2
    · rw [hkeep1, hid1 o1, hidx2]
      by_cases hlt : o1 < st.heap.length
      · rw [if_pos hlt]
        have := hBound o1 hlt
        omega
      · rw [if_neg hlt]
        rw [hkeep1, hid1 o1, if_neg hlt] at hz1
        exact absurd rfl hz1
    · rw [hkeep1, hid1 o1] at hz1 ⊢
      rw [hkeep2, hid1 o2] at hz2 ⊢
      by_cases hlt1 : o1 < st.heap.length
      · by_cases hlt2 : o2 < st.heap.length
        · rw [if_pos hlt1] at hz1 ⊢
          rw [if_pos hlt2] at hz2 ⊢
          exact hInj o1 o2 hlt1 hlt2 hne hz1 hz2
        · rw [if_neg hlt2] at hz2
          exact absurd rfl hz2
      · rw [if_neg hlt1] at hz1
        exact absurd rfl hz1

/-- Every reachable tracker state satisfies the id invariant. -/
theorem reach_idInv (cfg : TrackerCfg) (st : TrackerState) (h : Reach cfg st) :
    IdInv st := by
  induction h with
  | init =>
      refine ⟨?_, ?_, ?_, ?_, ?_⟩ <;>
        simp [initState, getTrack]
  | step st2 sol dets hsol _ ih => exact idInv_step cfg sol st2 dets hsol ih

/-- **C7** (confirmed): in every reachable tracker state, (i) two distinct
track objects simultaneously in `tracked_tracks` never share a `track_id`
(the same object may occur twice in the list, see C1, but carries one id),
and (ii) on the next `update` call — for any valid solver and detections —
the ids drawn by activation are strictly increasing in order of assignment
and strictly exceed every id ever assigned before (every id is recorded in
some heap object, and the heap only grows). -/
theorem C7_track_ids (cfg : TrackerCfg) (st : TrackerState) (hreach : Reach cfg st) :
    (∀ t1 ∈ st.tracked_tracks, ∀ t2 ∈ st.tracked_tracks, t1 ≠ t2 →
      (getTrack st.heap t1).track_id ≠ (getTrack st.heap t2).track_id) ∧
    (∀ sol dets, AssignOk sol →
      List.Chain' (· < ·) (spawnIdsOf cfg sol st dets) ∧
      ∀ x ∈ spawnIdsOf cfg sol st dets, ∀ o, o < st.heap.length →
        (getTrack st.heap o).track_id < x) := by
  obtain ⟨hWFt, hWFl, hTid, hBound, hInj⟩ := reach_idInv cfg st hreach
  constructor
  · intro t1 h1 t2 h2 hne
    exact hInj t1 t2 (hWFt t1 h1) (hWFt t2 h2) hne (hTid t1 h1) (hTid t2 h2)
  · intro sol dets hsol
    obtain ⟨_, hids, _, _⟩ := spawn_summary cfg sol st dets hsol hWFt hWFl
    rw [hids]
    refine ⟨List.Pairwise.chain' (List.pairwise_lt_range' _ _ 1 (Nat.le_refl 1)), ?_⟩
    intro x hx o ho
    have hxge := ((List.mem_range'_1).mp hx).1
    have := hBound o ho
    omega

section ConcreteEval4

set_option allowUnsafeReducibility true
attribute [local semireducible] Rat.add Rat.sub Rat.mul Rat.inv

/-- Witness for `C7_track_ids`: after one frame with two detections, the two
simultaneously tracked objects carry different ids. -/
theorem C7_track_ids_witness :
    (getTrack (byteUpdate defaultCfg diagSolver initState [detP, detQ]).1.heap 0).track_id
      ≠ (getTrack (byteUpdate defaultCfg diagSolver initState
          [detP, detQ]).1.heap 1).track_id := by
  have h := C7_track_ids defaultCfg
    (byteUpdate defaultCfg diagSolver initState [detP, detQ]).1
    (Reach.step initState diagSolver [detP, detQ] diagSolver_ok Reach.init)
  exact h.1 0 (by decide) 1 (by decide) (by decide)

end ConcreteEval4

/-- `iou_batch` is symmetric in its two boxes. -/
theorem iouPair_comm (a b : Tlbr) : iouPair a b = iouPair b a := by
  obtain ⟨ax1, ay1, ax2, ay2⟩ := a
  obtain ⟨bx1, by1, bx2, by2⟩ := b
  simp only [iouPair]
  rw [max_comm ax1 bx1, max_comm ay1 by1, min_comm ax2 bx2, min_comm ay2 by2,
    add_comm ((ax2 - ax1) * (ay2 - ay1)) ((bx2 - bx1) * (by2 - by1))]

/-- `iou_batch` entries always lie in [0, 1] (over exact rationals). -/
theorem iouPair_bounds (a b : Tlbr) : 0 ≤ iouPair a b ∧ iouPair a b ≤ 1 := by
  obtain ⟨ax1, ay1, ax2, ay2⟩ := a
  obtain ⟨bx1, by1, bx2, by2⟩ := b
  simp only [iouPair]
  have hwge : (0:ℚ) ≤ max 0 (min ax2 bx2 - max ax1 bx1) := le_max_left 0 _
  have hhge : (0:ℚ) ≤ max 0 (min ay2 by2 - max ay1 by1) := le_max_left 0 _
  have hdpos : (0:ℚ) < max ((ax2 - ax1) * (ay2 - ay1) + (bx2 - bx1) * (by2 - by1)
      - max 0 (min ax2 bx2 - max ax1 bx1) * max 0 (min ay2 by2 - max ay1 by1))
      (1 / 10000000000) :=
    lt_of_lt_of_le (by norm_num) (le_max_right _ _)
  constructor
  · exact div_nonneg (mul_nonneg hwge hhge) (le_of_lt hdpos)
  · rw [div_le_one hdpos]
    rcases (mul_nonneg hwge hhge).lt_or_eq with hprod | hprod
    · have hw0 : (0:ℚ) < max 0 (min ax2 bx2 - max ax1 bx1) := by
        rcases hwge.lt_or_eq with h | h
        · exact h
        · exfalso; rw [← h] at hprod; simp at hprod
      have hh0 : (0:ℚ) < max 0 (min ay2 by2 - max ay1 by1) := by
        rcases hhge.lt_or_eq with h | h
        · exact h
        · exfalso; rw [← h] at hprod; simp at hprod
      have hwt : (0:ℚ) < min ax2 bx2 - max ax1 bx1 := by
        by_contra hcon
        push_neg at hcon
        rw [max_eq_left hcon] at hw0
        exact absurd hw0 (lt_irrefl 0)
      have hht : (0:ℚ) < min ay2 by2 - max ay1 by1 := by
        by_contra hcon
        push_neg at hcon
        rw [max_eq_left hcon] at hh0
        exact absurd hh0 (lt_irrefl 0)
      rw [max_eq_right (le_of_lt hwt), max_eq_right (le_of_lt hht)]
      have hwa : min ax2 bx2 - max ax1 bx1 ≤ ax2 - ax1 := by
        have h1 := min_le_left ax2 bx2
        have h2 := le_max_left ax1 bx1
        linarith
      have hwb : min ax2 bx2 - max ax1 bx1 ≤ bx2 - bx1 := by
        have h1 := min_le_right ax2 bx2
        have h2 := le_max_right ax1 bx1
        linarith
      have hha : min ay2 by2 - max ay1 by1 ≤ ay2 - ay1 := by
        have h1 := min_le_left ay2 by2
        have h2 := le_max_left ay1 by1
        linarith
      have hhb : min ay2 by2 - max ay1 by1 ≤ by2 - by1 := by
        have h1 := min_le_right ay2 by2
        have h2 := le_max_right ay1 by1
        linarith
      have hia : (min ax2 bx2 - max ax1 bx1) * (min ay2 by2 - max ay1 by1)
          ≤ (ax2 - ax1) * (ay2 - ay1) := by nlinarith
      have hib : (min ax2 bx2 - max ax1 bx1) * (min ay2 by2 - max ay1 by1)
          ≤ (bx2 - bx1) * (by2 - by1) := by nlinarith
      calc (min ax2 bx2 - max ax1 bx1) * (min ay2 by2 - max ay1 by1)
          ≤ (ax2 - ax1) * (ay2 - ay1) + (bx2 - bx1) * (by2 - by1)
            - (min ax2 bx2 - max ax1 bx1) * (min ay2 by2 - max ay1 by1) := by linarith
        _ ≤ _ := le_max_left _ _
    · rw [← hprod]
      exact le_of_lt (lt_of_lt_of_le (by norm_num) (le_max_right _ _))

/-- **C8** (amended): the axis-aligned IoU of `iou_batch` is symmetric and
lies in [0, 1] for all boxes; `IoU(A, A) = 1` holds for every box A of
positive extent whose area reaches the clamp constant `1e-10` (so the
`max(union, 1e-10)` guard does not inflate the denominator).  For a
degenerate or tinier box the claim fails: see `C8_counterexample`. -/
theorem C8_iou_props :
    (∀ a b : Tlbr, iouPair a b = iouPair b a) ∧
    (∀ a b : Tlbr, 0 ≤ iouPair a b ∧ iouPair a b ≤ 1) ∧
    (∀ a : Tlbr, a.x1 < a.x2 → a.y1 < a.y2 →
      (1 : ℚ) / 10000000000 ≤ (a.x2 - a.x1) * (a.y2 - a.y1) → iouPair a a = 1) := by
  refine ⟨iouPair_comm, iouPair_bounds, ?_⟩
  intro a hx hy harea
  obtain ⟨ax1, ay1, ax2, ay2⟩ := a
  simp only at hx hy harea
  simp only [iouPair, min_self, max_self]
  rw [max_eq_right (by linarith : (0:ℚ) ≤ ax2 - ax1),
    max_eq_right (by linarith : (0:ℚ) ≤ ay2 - ay1)]
  have harea0 : (0:ℚ) < (ax2 - ax1) * (ay2 - ay1) :=
    lt_of_lt_of_le (by norm_num) harea
  rw [show (ax2 - ax1) * (ay2 - ay1) + (ax2 - ax1) * (ay2 - ay1)
      - (ax2 - ax1) * (ay2 - ay1) = (ax2 - ax1) * (ay2 - ay1) from by ring]
  rw [max_eq_left harea]
  exact div_self (ne_of_gt harea0)

section ConcreteEval5

set_option allowUnsafeReducibility true
attribute [local semireducible] Rat.add Rat.sub Rat.mul Rat.inv

/-- **C8** (counterexample): for the degenerate box (0,0,0,0) the claimed
`IoU(A, A) = 1` fails — intersection and union are 0, the denominator is
clamped to `1e-10`, and the IoU evaluates to 0. -/
theorem C8_counterexample :
    iouPair ⟨0, 0, 0, 0⟩ ⟨0, 0, 0, 0⟩ = 0 ∧ iouPair ⟨0, 0, 0, 0⟩ ⟨0, 0, 0, 0⟩ ≠ 1 := by
  refine ⟨by decide, by decide⟩

/-- Witness for `C8_iou_props`: the unit box has self-IoU exactly 1. -/
theorem C8_iou_props_witness : iouPair ⟨0, 0, 1, 1⟩ ⟨0, 0, 1, 1⟩ = 1 := by
  exact C8_iou_props.2.2 ⟨0, 0, 1, 1⟩ (by norm_num) (by norm_num) (by norm_num)

end ConcreteEval5

theorem suppRel_refl (l : List CSXYWHR) : SuppRel l l := by
  induction l with
  | nil => exact List.Forall₂.nil
  | cons a rest ih => exact List.Forall₂.cons (Or.inl rfl) ih

theorem suppRel_suppress (M : MathOps) (t : ℚ) (lead : CSXYWHR) {l2 l1 : List CSXYWHR}
    (h : SuppRel l2 l1) : SuppRel (suppress M t lead l2) l1 := by
  induction h with
  | nil => exact List.Forall₂.nil
  | cons hba hrest ih =>
      rename_i b a l2' l1'
      refine List.Forall₂.cons ?_ ih
      by_cases hp : t < probiou M lead b
      · rcases hba with rfl | rfl
        · exact Or.inr (by simp [suppress, hp])
        · exact Or.inr (by simp [suppress, hp])
      · rcases hba with rfl | rfl
        · exact Or.inl (by simp [suppress, hp])
        · exact Or.inr (by simp [suppress, hp])

/-- The NMS scan emits a subsequence of the (stable, descending) sorted
list: suppressed boxes are dropped, kept boxes are unmodified. -/
theorem nmsLoop_sublist (M : MathOps) (t : ℚ) :
    ∀ (n : ℕ) (l2 l1 : List CSXYWHR), l2.length ≤ n → SuppRel l2 l1 →
      (nmsLoop M t l2).Sublist l1 := by
  intro n
  induction n with
  | zero =>
      intro l2 l1 hlen hrel
      cases hrel with
      | nil => simp [nmsLoop]
      | cons hba hrest => simp at hlen
  | succ k ih =>
      intro l2 l1 hlen hrel
      cases hrel with
      | nil => simp [nmsLoop]
      | cons hba hrest =>
          rename_i b a l2' l1'
          rw [nmsLoop]
          split
          · rename_i hbid
            have hbeq : b = a := by
              rcases hba with rfl | rfl
              · rfl
              · exact absurd rfl hbid
            subst hbeq
            refine List.Sublist.cons₂ b ?_
            refine ih (suppress M t b l2') l1' ?_ (suppRel_suppress M t b hrest)
            rw [suppress, List.length_map]
            simpa using hlen
          · exact List.Sublist.cons a (ih l2' l1' (by simpa using hlen) hrest)

theorem sortDesc_sorted (l : List CSXYWHR) : List.Sorted scoreGe (sortDesc l) :=
  List.sorted_insertionSort scoreGe l

/-- **C5** (confirmed): for two boxes of distinct scores (A the higher) and
valid class ids, under any interpretation of the transcendental functions:
if `_probiou` exceeds the threshold only A survives (in either input order),
if it is at or below the threshold both survive in descending-score order;
and in general the NMS output is a subsequence of the stable descending sort
of its input (hence descending by score, ties in original order). -/
theorem C5_nms (M : MathOps) (t : ℚ) (A B : CSXYWHR)
    (hA : A.classId ≠ -1) (hB : B.classId ≠ -1) (hsc : B.score < A.score) :
    (t < probiou M A B →
      nmsRotated M [A, B] t = [A] ∧ nmsRotated M [B, A] t = [A]) ∧
    (probiou M A B ≤ t →
      nmsRotated M [A, B] t = [A, B] ∧ nmsRotated M [B, A] t = [A, B]) ∧
    (∀ l : List CSXYWHR, (nmsRotated M l t).Sublist (sortDesc l) ∧
      List.Sorted scoreGe (nmsRotated M l t)) := by
  have hsortAB : sortDesc [A, B] = [A, B] := by
    simp only [sortDesc, List.insertionSort, List.orderedInsert]
    rw [if_pos (show scoreGe A B from le_of_lt hsc)]
  have hsortBA : sortDesc [B, A] = [A, B] := by
    simp only [sortDesc, List.insertionSort, List.orderedInsert]
    rw [if_neg (show ¬ scoreGe B A from not_le.mpr hsc)]
  refine ⟨?_, ?_, ?_⟩
  · intro hgt
    have hrun : nmsLoop M t [A, B] = [A] := by
      rw [nmsLoop, if_pos hA]
      have hsup : suppress M t A [B] = [{ B with classId := -1 }] := by
        simp [suppress, hgt]
      rw [hsup, nmsLoop]
      rw [if_neg (by simp)]
      rw [nmsLoop]
    constructor
    · rw [nmsRotated, hsortAB, hrun]
    · rw [nmsRotated, hsortBA, hrun]
  · intro hle
    have hrun : nmsLoop M t [A, B] = [A, B] := by
      rw [nmsLoop, if_pos hA]
      have hsup : suppress M t A [B] = [B] := by
        simp [suppress, not_lt.mpr hle]
      rw [hsup, nmsLoop, if_pos hB]
      rw [show suppress M t B [] = [] from rfl, nmsLoop]
    constructor
    · rw [nmsRotated, hsortAB, hrun]
    · rw [nmsRotated, hsortBA, hrun]
  · intro l
    have hsub : (nmsRotated M l t).Sublist (sortDesc l) := by
      rw [nmsRotated]
      exact nmsLoop_sublist M t (sortDesc l).length (sortDesc l) (sortDesc l)
        (le_refl _) (suppRel_refl _)
    exact ⟨hsub, List.Pairwise.sublist hsub (sortDesc_sorted l)⟩

theorem listGetD_set_ne {α : Type} (l : List α) {i j : ℕ} (x d : α) (hne : i ≠ j) :
    (l.set i x).getD j d = l.getD j d := by
  simp [List.getD, List.get?_eq_getElem?, List.getElem?_set_ne hne]

/-- The head loop of `_postprocess` writes back only the even rows
`out[index*2]` with `index < head_num`: every odd row (class scores) and
every row from `2*head_num` on (angles) keeps its contents. -/
theorem postHead_fold_getD (M : MathOps) (cfg : YoloCfg) (mesh : List ℚ) (j : ℕ)
    (hj : j % 2 = 1 ∨ 2 * cfg.headNum ≤ j) :
    ∀ (L : List ℕ) (acc : List (List ℚ) × List CSXYWHR × ℕ),
      (∀ i ∈ L, i < cfg.headNum) →
      ((L.foldl (fun a index => processHead M cfg mesh index a) acc).1).getD j [] =
        acc.1.getD j [] := by
  intro L
  induction L with
  | nil => intro acc _; rfl
  | cons i rest ih =>
      intro acc hmem
      rw [List.foldl_cons]
      rw [ih _ (fun x hx => hmem x (List.mem_cons_of_mem _ hx))]
      have hi : i < cfg.headNum := hmem i (List.mem_cons_self _ _)
      show ((processHead M cfg mesh i acc).1).getD j [] = acc.1.getD j []
      simp only [processHead]
      refine listGetD_set_ne _ _ _ ?_
      rcases hj with h1 | h2 <;> omega

theorem nmsRotated_nil (M : MathOps) (t : ℚ) : nmsRotated M [] t = [] := by
  rw [nmsRotated, show sortDesc [] = ([] : List CSXYWHR) from rfl, nmsLoop]

/-- **C4** (amended after the counterexample): `_postprocess` never touches
the class-score rows (`out[2*index+1]`) or the angle rows (`out[j]` for
`j ≥ 2*head_num`) of its input, and when no cell passes `object_thresh`
(empty candidate list) it returns the empty list rather than raising.  The
original purity claim fails on the regression rows: see the counterexample. -/
theorem C4_postprocess (M : MathOps) (cfg : YoloCfg) (out : List (List ℚ)) :
    (∀ j : ℕ, j % 2 = 1 ∨ 2 * cfg.headNum ≤ j →
      (postprocess M cfg out).2.getD j [] = out.getD j []) ∧
    (postCands M cfg out = [] → (postprocess M cfg out).1 = []) := by
  constructor
  · intro j hj
    show (postLoop M cfg out).1.getD j [] = out.getD j []
    rw [postLoop]
    exact postHead_fold_getD M cfg (meshgrid cfg) j hj (List.range cfg.headNum)
      (out, [], 0) (fun i hi => List.mem_range.mp hi)
  · intro hc
    show ((nmsRotated M (postLoop M cfg out).2.1 cfg.nmsThresh).map (toDetectBox M)) = []
    rw [show (postLoop M cfg out).2.1 = postCands M cfg out from rfl, hc,
      nmsRotated_nil]
    rfl

section ConcreteEval6

set_option maxHeartbeats 4000000
set_option maxRecDepth 100000
set_option allowUnsafeReducibility true
attribute [local semireducible] Rat.add Rat.sub Rat.mul Rat.inv

/-- **C4 counterexample**: on the tiny all-zero input, the single cell is
accepted (`sigmoid 0 = 1/2 > 1/4`) and the DFL decode overwrites the
regression row in place with `exp 0 = 1` (the same value the Python code
writes, since `mops0.exp 0 = 1` is the exact value of the real `exp` there):
the caller's buffers come back mutated, refuting "leaves its inputs
unchanged". -/
theorem C4_counterexample :
    (postprocess mops0 tinyYolo outZ).2 = [[1, 1, 1, 1], [0], [0]] ∧
    (postprocess mops0 tinyYolo outZ).2 ≠ outZ :=
  ⟨by decide, by decide⟩

/-- Witness for C4 at the concrete over-threshold configuration: the class
row of the buffers survives, and with no accepted cell the result is empty. -/
theorem C4_postprocess_witness :
    (postprocess mops0 tinyYolo2 outZ).2.getD 1 [] = outZ.getD 1 [] ∧
    (postprocess mops0 tinyYolo2 outZ).1 = [] :=
  ⟨(C4_postprocess mops0 tinyYolo2 outZ).1 1 (Or.inl (by decide)),
   (C4_postprocess mops0 tinyYolo2 outZ).2 (by decide)⟩

/-- Witness for C5 at concrete boxes: `_probiou mops0 csA csB = 1 > 1/2`, so
in either input order only the higher-scoring `csA` survives. -/
theorem C5_nms_witness :
    nmsRotated mops0 [csA, csB] (1/2) = [csA] ∧
    nmsRotated mops0 [csB, csA] (1/2) = [csA] :=
  (C5_nms mops0 (1/2) csA csB (by decide) (by decide) (by decide)).1 (by decide)

end ConcreteEval6

/-- **C10** (confirmed): with tracking enabled and an empty detection list,
`detect_and_track` returns the empty list before ever calling
`tracker.update`: the tracker state (frame counter, all three collections,
the id counter and the heap) is returned unchanged, so empty frames do not
age out existing tracks at this interface. -/
theorem C10_empty_frame (M : MathOps) (cfg : TrackerCfg) (sol : Solver)
    (st : TrackerState) :
    detectAndTrack M cfg sol true st [] = (st, []) := rfl

end SickVision
